/-
  Verification of the isc compiler-front-end toolkit core.

  Shallow embedding of:
    * src/lalr/src/lalr.rs   — LR(0) items, item_closure, close_goto, lr0_set
    * src/lalr/src/lr1.rs    — LR(1) items, lr1_closure, set_action,
                               determine_conflict, slr1_table
    * src/llex/src/macros.rs and src/llex-derive/src/lib.rs
                             — combined-NFA action mapping, per-DFA-state
                               action selection, generated scanner functions
    * src/regexp2/src/parser.rs — shunting-yard regex parser state machine

  Functions of the repository that are not present under src/
  (grammar.rs: Grammar, first_sets, follow_sets, lr0_automaton; the
  automata crate's DFA; regexp2's class.rs) are modelled from the spec and
  are marked `Modelled from the spec:` in their doc comments.

  Rust `BTreeSet`s of items are modelled as `Finset`s; `BTreeMap`s as
  association lists or update functions; iteration with early `?` return
  as explicit folds in `Except`/`Option`.  `while changed` fixed-point
  loops and recursions of the source that have no structural measure are
  given explicit fuel; where the source's loop provably terminates the
  fuel is chosen large enough (a cardinality bound) and adequacy is proved.
-/
import Mathlib

set_option linter.unusedSectionVars false

namespace ISC

/-- A grammar symbol: terminal or nonterminal (src/lalr, `Symbol<T, N>`). -/
inductive Sym (T N : Type) where
  | t (a : T)
  | nt (A : N)
deriving DecidableEq

/-- A production right-hand side is its body, a sequence of symbols
(src/lalr `Rhs` — the semantic action component is irrelevant to every
claim here and is dropped from item identity, matching the structural
comparisons on `(lhs, rhs, pos)`). -/
abbrev Body (T N : Type) := List (Sym T N)

/-- Modelled from the spec: `Grammar<T,N,A>` (§3) is a start nonterminal
and a mapping from nonterminals to ordered lists of productions.  The
mapping is total here; the spec invariant "every nonterminal referenced in
any body has an entry" justifies that.  `nts` lists the nonterminals with
entries (the map's key set), needed to enumerate rules. -/
structure GrammarE (T N : Type) where
  start : N
  nts : List N
  rules : N → List (Body T N)

/-- An LR(0) item `(lhs, rhs, pos)` (src/lalr/src/lalr.rs `Item`). -/
structure Item0 (T N : Type) where
  lhs : N
  rhs : Body T N
  pos : Nat
deriving DecidableEq

variable {T N : Type} [LinearOrder T] [LinearOrder N]

/-- Key for the derived `Ord` on Rust's `Symbol`: variant order
(`Terminal` before `Nonterminal`), then the payload's order. -/
def Sym.key : Sym T N → (T ⊕ₗ N)
  | .t a => toLex (Sum.inl a)
  | .nt A => toLex (Sum.inr A)

/-- Rust's `T: Ord, N: Ord` bounds and the derived `Ord` on `Symbol`. -/
instance : LinearOrder (Sym T N) :=
  LinearOrder.lift' Sym.key (by
    intro x y h
    cases x <;> cases y <;> simp [Sym.key, toLex] at h <;> simp [h])

/-- Key for the structural `Ord` on LR(0) items generated by the
`comparators!(Item(..), (lhs, rhs, pos))` macro. -/
def Item0.key (it : Item0 T N) : N ×ₗ (List (Sym T N) ×ₗ ℕ) :=
  toLex (it.lhs, toLex (it.rhs, it.pos))

instance : LinearOrder (Item0 T N) :=
  LinearOrder.lift' Item0.key (by
    intro x y h
    cases x; cases y
    simp [Item0.key, toLex, Prod.ext_iff] at h
    simp [h.1, h.2.1, h.2.2])

/-- `Item::next_symbol`: the symbol after the dot, if any. -/
def Item0.nextSymbol (it : Item0 T N) : Option (Sym T N) :=
  it.rhs.get? it.pos

/-- The sorted element list of a `Finset` — `BTreeSet` iteration order.
(Mathlib's `Finset.sort` goes through `mergeSort`, whose well-founded
recursion blocks kernel reduction; insertion sort reduces.) -/
def sortedList {α : Type} [LinearOrder α] (s : Finset α) : List α :=
  s.val.liftOn (fun l => List.insertionSort (· ≤ ·) l) fun a b p =>
    List.eq_of_perm_of_sorted
      ((List.perm_insertionSort _ a).trans (p.trans (List.perm_insertionSort _ b).symm))
      (List.sorted_insertionSort _ a) (List.sorted_insertionSort _ b)

/-- The initial item `[S' -> . S]` built by `lr0_set` from the first
production of the start symbol (`self.rules.get(&self.start).unwrap()[0]`;
the missing-production panic is modelled by `headD []`, justified by the
spec invariant that the start symbol has at least one production). -/
def startItem (g : GrammarE T N) : Item0 T N :=
  ⟨g.start, (g.rules g.start).headD [], 0⟩

/-- One pass of `item_closure` (src/lalr/src/lalr.rs:70-92): from every
item `[A -> a.Bb]` of the set, all items `[B -> .γ]` for productions
`B -> γ`, except a generated item equal to the generating item itself
(`if new_item != *item`). -/
def genExcl (g : GrammarE T N) (s : Finset (Item0 T N)) : Finset (Item0 T N) :=
  s.biUnion fun it =>
    match it.nextSymbol with
    | some (.nt B) =>
        ((g.rules B).toFinset.image (fun r => (⟨B, r, 0⟩ : Item0 T N))).filter
          (fun ni => ni ≠ it)
    | _ => ∅

/-- `Grammar::item_closure` (src/lalr/src/lalr.rs:65-101).  The source
recurses on the set `added` of newly generated items with no decreasing
measure; the recursion is given explicit fuel, `none` meaning the fuel ran
out (the source would still be recursing).  Mirrors the source: compute
`added` from the set; if empty, done; otherwise close `added` recursively
and append the result (`set.append(&mut added)`). -/
def itemClosureF (g : GrammarE T N) : Nat → Finset (Item0 T N) → Option (Finset (Item0 T N))
  | 0, _ => none
  | fuel + 1, s =>
    let added := genExcl g s
    if added = ∅ then some s
    else (itemClosureF g fuel added).map (fun c => s ∪ c)

/-- `item_closure` terminates on the given input for some fuel. -/
def itemClosureTerminates (g : GrammarE T N) (s : Finset (Item0 T N)) : Prop :=
  ∃ fuel r, itemClosureF g fuel s = some r

/-- Fold over a list in `Option` (used to model loops whose body may run
out of fuel). -/
def foldO {α β : Type} (f : β → α → Option β) : β → List α → Option β
  | b, [] => some b
  | b, a :: l =>
    match f b a with
    | none => none
    | some b' => foldO f b' l

/-- `Grammar::close_goto` (src/lalr/src/lalr.rs:105-143): for every item
of `set` whose next symbol is `x`, close the singleton of the advanced
item and append everything.  Fuel feeds the inner `item_closure`. -/
def closeGotoF (g : GrammarE T N) (fuel : Nat) (s : Finset (Item0 T N))
    (x : Sym T N) : Option (Finset (Item0 T N)) :=
  foldO
    (fun acc it =>
      (itemClosureF g fuel ({⟨it.lhs, it.rhs, it.pos + 1⟩} : Finset (Item0 T N))).map
        (fun c => acc ∪ c))
    ∅
    (sortedList (s.filter (fun it => it.nextSymbol = some x)))

/-- The symbols enumerated by `lr0_set`'s inner loop:
`state.items.iter().flat_map(|item| item.rhs.body).dedup()`.  (itertools
`dedup` drops consecutive duplicates of the iteration; `List.dedup` drops
all duplicates — the loop body is idempotent per symbol, so only duplicate
work differs.) -/
def symbolsOfSet (s : Finset (Item0 T N)) : List (Sym T N) :=
  ((sortedList s).flatMap (fun it => it.rhs)).dedup

/-- The automaton value returned by `lr0_set`
(src/lalr/src/lalr.rs `LR0Automaton`): states paired with their transition
maps. -/
structure LR0SetResult (T N : Type) where
  states : List (Finset (Item0 T N) × List (Sym T N × Nat))
deriving DecidableEq

/-- The worklist loop of `Grammar::lr0_set` (src/lalr/src/lalr.rs:40-57).
For each popped state and each symbol of its items' bodies, `close_goto`
is computed and the resulting state is pushed onto the queue.  The
source's duplicate check `if states.contains(&new_state) {}` has an empty
body — its result is discarded — and nothing is ever appended to `states`
nor inserted into any transition map, so `states` is carried through
unchanged.  Fuel bounds the loop (the source loop has no termination
argument); `none` = fuel ran out. -/
def lr0Loop (g : GrammarE T N) :
    Nat → List (Finset (Item0 T N)) →
    List (Finset (Item0 T N) × List (Sym T N × Nat)) →
    Option (LR0SetResult T N)
  | 0, _, _ => none
  | _ + 1, [], states => some ⟨states⟩
  | fuel + 1, st :: queue, states =>
    match foldO
        (fun acc x => (closeGotoF g fuel st x).map (fun j => acc ++ [j]))
        [] (symbolsOfSet st) with
    | none => none
    | some pushed => lr0Loop g fuel (queue ++ pushed) states

/-- `Grammar::lr0_set` (src/lalr/src/lalr.rs:10-60): the initial state is
the closure of `{[S' -> .S]}`; it is pushed (with an empty transition map)
as the only element of `states`, and the worklist loop runs. -/
def lr0_setF (g : GrammarE T N) (fuel : Nat) : Option (LR0SetResult T N) :=
  match itemClosureF g fuel ({startItem g} : Finset (Item0 T N)) with
  | none => none
  | some i0 => lr0Loop g fuel [i0] [(i0, [])]

/-! ## LR(1) items and `lr1_closure` (src/lalr/src/lr1.rs) -/

/-- An LR(1) item (src/lalr/src/lr1.rs `LR1Item`): an LR(0) item plus a
lookahead; `lookahead = none` is the endmarker (or `#` sentinel). -/
structure LR1ItemE (T N : Type) where
  lhs : N
  rhs : Body T N
  pos : Nat
  la : Option T
deriving DecidableEq

/-- `LR1Item::next_symbol`. -/
def LR1ItemE.nextSymbol (it : LR1ItemE T N) : Option (Sym T N) :=
  it.rhs.get? it.pos

/-- The FIRST-of-a-sequence computation of `lr1_closure`
(src/lalr/src/lr1.rs:296-322): walk the symbols while the prefix so far is
nullable; a terminal contributes itself and stops; a nonterminal
contributes its FIRST set and stops unless it is nullable.  The second
component is `true` iff the whole sequence was nullable.  This is also the
compositional FIRST of the spec (§4.6, §4.9). -/
def seqFirst (fs : N → Finset T × Bool) : Body T N → Finset T × Bool
  | [] => (∅, true)
  | sy :: rest =>
    match sy with
    | .t a => ({a}, false)
    | .nt B =>
      let p := fs B
      if p.2 then
        let q := seqFirst fs rest
        (p.1 ∪ q.1, q.2)
      else (p.1, false)

/-- `FIRST(βa)` for an item `[A -> α·Bβ, a]`
(src/lalr/src/lr1.rs:292-333): the terminals of `FIRST(β)` mapped into the
`Option` lookahead domain, plus the item's own lookahead `a` exactly when
all of `β` was nullable. -/
def firstBetaA (fs : N → Finset T × Bool) (it : LR1ItemE T N) : Finset (Option T) :=
  ((seqFirst fs (it.rhs.drop (it.pos + 1))).1.image some) ∪
    (if (seqFirst fs (it.rhs.drop (it.pos + 1))).2 then {it.la} else ∅)

/-- One pass of `lr1_closure` (src/lalr/src/lr1.rs:277-347): the set
`added` generated from the current set — for each item `[A -> α·Bβ, a]`
and production `B -> γ`, the items `[B -> ·γ, b]` for `b ∈ FIRST(βa)`. -/
def genLR1 (g : GrammarE T N) (fs : N → Finset T × Bool)
    (s : Finset (LR1ItemE T N)) : Finset (LR1ItemE T N) :=
  s.biUnion fun it =>
    match it.nextSymbol with
    | some (.nt B) =>
        (g.rules B).toFinset.biUnion fun r =>
          (firstBetaA fs it).image fun la => ⟨B, r, 0, la⟩
    | _ => ∅

/-- The `while changed` loop of `lr1_closure` (src/lalr/src/lr1.rs:272-356)
with fuel: insert the generated items; stop when nothing new appears. -/
def lr1ClosLoop (g : GrammarE T N) (fs : N → Finset T × Bool) :
    Nat → Finset (LR1ItemE T N) → Finset (LR1ItemE T N)
  | 0, s => s
  | fuel + 1, s =>
    let a := genLR1 g fs s
    if a ⊆ s then s else lr1ClosLoop g fs fuel (s ∪ a)

/-- Terminals appearing in one production body. -/
def bodyTerms (r : Body T N) : Finset T :=
  r.foldr (fun sy acc => match sy with | .t a => insert a acc | .nt _ => acc) ∅

/-- Terminals appearing in any production body of the grammar. -/
def gBodyTerms (g : GrammarE T N) : Finset T :=
  g.nts.foldr (fun A acc => ((g.rules A).foldr (fun r acc2 => bodyTerms r ∪ acc2) ∅) ∪ acc) ∅

/-- Terminals appearing in the FIRST sets used by the closure. -/
def fsTerms (g : GrammarE T N) (fs : N → Finset T × Bool) : Finset T :=
  g.nts.foldr (fun A acc => (fs A).1 ∪ acc) ∅

/-- All lookaheads that items of the closure of `I` can carry: the
endmarker `none`, terminals of bodies and FIRST sets, and the lookaheads
already present in `I`. -/
def laUniverse (g : GrammarE T N) (fs : N → Finset T × Bool)
    (I : Finset (LR1ItemE T N)) : Finset (Option T) :=
  insert none
      (((gBodyTerms g ∪ fsTerms g fs) ∪ I.biUnion (fun it => bodyTerms it.rhs)).image some)
    ∪ I.image (·.la)

/-- A finite universe containing `I` and every item `lr1_closure` can ever
generate from it; its cardinality bounds the number of loop iterations. -/
def lr1ItemUniverse (g : GrammarE T N) (fs : N → Finset T × Bool)
    (I : Finset (LR1ItemE T N)) : Finset (LR1ItemE T N) :=
  I ∪ g.nts.toFinset.biUnion fun B =>
      (g.rules B).toFinset.biUnion fun r =>
        (laUniverse g fs I).image fun la => ⟨B, r, 0, la⟩

/-- `Grammar::lr1_closure` (src/lalr/src/lr1.rs:267-357); the fuel is the
universe cardinality plus one, which is proved adequate below. -/
def lr1_closureE (g : GrammarE T N) (fs : N → Finset T × Bool)
    (I : Finset (LR1ItemE T N)) : Finset (LR1ItemE T N) :=
  lr1ClosLoop g fs ((lr1ItemUniverse g fs I).card + 1) I

/-! ## SLR(1) table construction (src/lalr/src/lr1.rs:360-418) -/

/-- `LR1Action` (src/lalr/src/lr1.rs). -/
inductive ActionE (T N : Type) where
  | shift (j : Nat)
  | reduce (A : N) (r : Body T N)
  | accept
deriving DecidableEq

/-- `LRConflict` (src/lalr/src/lr1.rs): `shift.0 = none` is the endmarker
terminal. -/
inductive LRConflictE (T N : Type) where
  | shiftReduce (sy : Option T) (dest : Nat) (A : N) (r : Body T N)
  | reduceReduce (A1 : N) (r1 : Body T N) (A2 : N) (r2 : Body T N)
deriving DecidableEq

/-- Outcome of table construction: a reported conflict, or a panic —
`set_action` calls `.unwrap()` on the result of `determine_conflict`,
which unwinds when that result is `None`. -/
inductive BuildErr (T N : Type) where
  | conflict (c : LRConflictE T N)
  | panicked
deriving DecidableEq

/-- `LR1State::determine_conflict` (src/lalr/src/lr1.rs:102-128).  Note
the `_ => None` arms: any collision involving `Accept`, and a
shift-shift collision, produce `None`. -/
def determine_conflict (a1 a2 : ActionE T N) (sy : Option T) :
    Option (LRConflictE T N) :=
  match a1 with
  | .reduce n1 r1 =>
    match a2 with
    | .reduce n2 r2 => some (.reduceReduce n1 r1 n2 r2)
    | .shift dest2 => some (.shiftReduce sy dest2 n1 r1)
    | _ => none
  | .shift dest1 =>
    match a2 with
    | .reduce n2 r2 => some (.shiftReduce sy dest1 n2 r2)
    | _ => none
  | _ => none

/-- `LR1State` (src/lalr/src/lr1.rs:19-26): the `BTreeMap`s of terminal
actions and nonterminal GOTOs are modelled as update functions, the
endmarker action as an `Option`. -/
structure LR1StateE (T N : Type) where
  actions : T → Option (ActionE T N)
  endmarker : Option (ActionE T N)
  goto : N → Option Nat

/-- `LR1State::set_action` (src/lalr/src/lr1.rs:63-100): insert an action
for a terminal (`sy = none` is the endmarker); if an action already
exists, `determine_conflict(..).unwrap()` — a `None` there is a panic. -/
def set_action (st : LR1StateE T N) (sy : Option T) (a : ActionE T N) :
    Except (BuildErr T N) (LR1StateE T N) :=
  match sy with
  | some s =>
    match st.actions s with
    | some existing =>
      match determine_conflict existing a (some s) with
      | some c => .error (.conflict c)
      | none => .error .panicked
    | none => .ok { st with actions := fun x => if x = s then some a else st.actions x }
  | none =>
    match st.endmarker with
    | some existing =>
      match determine_conflict existing a none with
      | some c => .error (.conflict c)
      | none => .error .panicked
    | none => .ok { st with endmarker := some a }

/-- A state of the LR(0) automaton as consumed by `slr1_table`: its item
set (in `BTreeSet` order) and its transition map (as an association
list in key order). -/
structure LR0StateE (T N : Type) where
  items : List (Item0 T N)
  transitions : List (Sym T N × Nat)

/-- The LR(0) automaton value (`lr0_automaton`'s result). -/
structure LR0AutoE (T N : Type) where
  states : List (LR0StateE T N)
  start : Nat

/-- `LR1Table` (src/lalr/src/lr1.rs:12-15). -/
structure LR1TableE (T N : Type) where
  states : List (LR1StateE T N)
  initial : Nat

/-- Fold with early `Err` return, modelling a `for` loop whose body uses
`?`. -/
def foldE {α β ε : Type} (f : β → α → Except ε β) : β → List α → Except ε β
  | b, [] => .ok b
  | b, a :: l =>
    match f b a with
    | .error e => .error e
    | .ok b' => foldE f b' l

/-- Map with early `Err` return, modelling a loop that pushes one result
per element and propagates errors with `?`. -/
def mapE {α β ε : Type} (f : α → Except ε β) : List α → Except ε (List β)
  | [] => .ok []
  | a :: l =>
    match f a with
    | .error e => .error e
    | .ok b =>
      match mapE f l with
      | .error e => .error e
      | .ok bs => .ok (b :: bs)

/-- The transition loop of `slr1_table` (src/lalr/src/lr1.rs:374-386):
terminals get `Shift` actions through `set_action`, nonterminals are
inserted into the GOTO map. -/
def transStep (ls : LR1StateE T N) (e : Sym T N × Nat) :
    Except (BuildErr T N) (LR1StateE T N) :=
  match e.1 with
  | .t a => set_action ls (some a) (.shift e.2)
  | .nt A => .ok { ls with goto := fun n => if n = A then some e.2 else ls.goto n }

/-- The item loop of `slr1_table` (src/lalr/src/lr1.rs:388-407): complete
items reduce on their FOLLOW set (and on the endmarker when FOLLOW
contains it), except for the start symbol, whose complete items accept on
the endmarker. -/
def itemStep (g : GrammarE T N) (follow : N → Finset T × Bool)
    (ls : LR1StateE T N) (it : Item0 T N) :
    Except (BuildErr T N) (LR1StateE T N) :=
  if it.pos = it.rhs.length then
    if it.lhs ≠ g.start then
      match foldE (fun ls2 a => set_action ls2 (some a) (.reduce it.lhs it.rhs)) ls
          (sortedList ((follow it.lhs).1)) with
      | .error e => .error e
      | .ok ls3 =>
        if (follow it.lhs).2 then set_action ls3 none (.reduce it.lhs it.rhs)
        else .ok ls3
    else set_action ls none .accept
  else .ok ls

/-- The fresh `LR1State` of src/lalr/src/lr1.rs:368-372. -/
def emptyLR1State : LR1StateE T N := ⟨fun _ => none, none, fun _ => none⟩

/-- The per-state body of `slr1_table`'s main loop
(src/lalr/src/lr1.rs:367-409): process the transitions, then the items. -/
def buildState (g : GrammarE T N) (follow : N → Finset T × Bool)
    (st : LR0StateE T N) : Except (BuildErr T N) (LR1StateE T N) :=
  match foldE transStep emptyLR1State st.transitions with
  | .error e => .error e
  | .ok ls1 => foldE (itemStep g follow) ls1 st.items

/-! ## FIRST/FOLLOW sets and the LR(0) automaton, modelled from the spec
(the repository's grammar.rs is not under src/). -/

/-- Lookup in an association list over the nonterminals, defaulting to
`(∅, false)`. -/
def lookA (as : List (N × (Finset T × Bool))) (n : N) : Finset T × Bool :=
  match as.find? (fun p => decide (p.1 = n)) with
  | some p => p.2
  | none => (∅, false)

/-- Modelled from the spec: one round of the `first_sets` fixed point
(§4.6) — for each production `A → X1 … Xk` add the compositional FIRST of
the body to `FIRST(A)`, and mark `A` nullable when some body is fully
nullable. -/
def firstStep (g : GrammarE T N) (as : List (N × (Finset T × Bool))) :
    List (N × (Finset T × Bool)) :=
  g.nts.map fun A =>
    (A,
     ((lookA as A).1 ∪ (g.rules A).foldr (fun r acc => (seqFirst (lookA as) r).1 ∪ acc) ∅,
      (lookA as A).2 || (g.rules A).any fun r => (seqFirst (lookA as) r).2))

/-- Rounds sufficient for the monotone FIRST/FOLLOW iterations to reach
their fixed point: every entry can grow at most `card + 1` times. -/
def iterBound (g : GrammarE T N) : Nat :=
  g.nts.length * ((gBodyTerms g).card + 2) + 1

/-- Modelled from the spec: `Grammar::first_sets` (§4.6), a fixed-point
iteration from empty sets. -/
def first_setsE (g : GrammarE T N) : N → Finset T × Bool :=
  lookA ((firstStep g)^[iterBound g] (g.nts.map fun A => (A, (∅, false))))

/-- Add terminals (and possibly the endmarker flag) to `FOLLOW(B)`. -/
def followAdd (as : List (N × (Finset T × Bool))) (B : N) (ts : Finset T)
    (fl : Bool) : List (N × (Finset T × Bool)) :=
  as.map fun p => if p.1 = B then (p.1, (p.2.1 ∪ ts, p.2.2 || fl)) else p

/-- Modelled from the spec: one round of the `follow_sets` fixed point
(§4.6) — for each production `A → α B β` add `FIRST(β)` to `FOLLOW(B)`,
and all of `FOLLOW(A)` (endmarker flag included) when `β` is nullable or
empty. -/
def followStep (g : GrammarE T N) (fst : N → Finset T × Bool)
    (as : List (N × (Finset T × Bool))) : List (N × (Finset T × Bool)) :=
  g.nts.foldl
    (fun as1 A =>
      (g.rules A).foldl
        (fun as2 r =>
          (List.range r.length).foldl
            (fun as3 i =>
              match r.get? i with
              | some (.nt B) =>
                let beta := r.drop (i + 1)
                let p := seqFirst fst beta
                let as4 := followAdd as3 B p.1 false
                if p.2 then followAdd as4 B (lookA as3 A).1 (lookA as3 A).2 else as4
              | _ => as3)
            as2)
        as1)
    as

/-- Modelled from the spec: `Grammar::follow_sets(start-override?)`
(§4.6), seeding the endmarker into FOLLOW of the start symbol (or the
override). -/
def follow_setsE (g : GrammarE T N) (so : Option N) : N → Finset T × Bool :=
  let fst := first_setsE g
  let st := so.getD g.start
  lookA ((followStep g fst)^[iterBound g]
    (g.nts.map fun A => (A, ((∅ : Finset T), decide (A = st)))))

/-- One pass of the LR(0) closure: from `[A -> a.Bb]` every `[B -> .γ]`. -/
def gen0 (g : GrammarE T N) (s : Finset (Item0 T N)) : Finset (Item0 T N) :=
  s.biUnion fun it =>
    match it.nextSymbol with
    | some (.nt B) => (g.rules B).toFinset.image fun r => ⟨B, r, 0⟩
    | _ => ∅

/-- Fuelled fixed-point loop for the LR(0) closure. -/
def clos0Loop (g : GrammarE T N) : Nat → Finset (Item0 T N) → Finset (Item0 T N)
  | 0, s => s
  | fuel + 1, s =>
    let a := gen0 g s
    if a ⊆ s then s else clos0Loop g fuel (s ∪ a)

/-- All dot-at-start items of the grammar. -/
def pos0Items (g : GrammarE T N) : Finset (Item0 T N) :=
  g.nts.toFinset.biUnion fun B => (g.rules B).toFinset.image fun r => ⟨B, r, 0⟩

/-- Modelled from the spec: `closure(I)` (§4.7) — the least set containing
`I` such that `[A → α·Bβ]` in the set and `B → γ` imply `[B → ·γ]` in the
set; computed as a fuelled fixed point. -/
def closure0 (g : GrammarE T N) (s : Finset (Item0 T N)) : Finset (Item0 T N) :=
  clos0Loop g ((s ∪ pos0Items g).card + 1) s

/-- Modelled from the spec: `goto(I, X)` (§4.7) — the closure of the
advanced items of `I` whose next symbol is `X`. -/
def goto0 (g : GrammarE T N) (I : Finset (Item0 T N)) (X : Sym T N) :
    Finset (Item0 T N) :=
  closure0 g ((I.filter fun it => it.nextSymbol = some X).image
    fun it => ⟨it.lhs, it.rhs, it.pos + 1⟩)

/-- All items of the grammar (any dot position): the number of distinct
item sets is at most `2 ^` its cardinality, which bounds the worklist. -/
def fullItemUniverse (g : GrammarE T N) : Finset (Item0 T N) :=
  g.nts.toFinset.biUnion fun B =>
    (g.rules B).toFinset.biUnion fun r =>
      (Finset.range (r.length + 1)).image fun p => ⟨B, r, p⟩

/-- Modelled from the spec: the worklist of §4.7 — pop a state, add every
nonempty `goto` successor not seen before; `seen` is the accumulated state
list in discovery order. -/
def lr0Explore (g : GrammarE T N) :
    Nat → List (Finset (Item0 T N)) → List (Finset (Item0 T N)) →
    List (Finset (Item0 T N))
  | 0, _, seen => seen
  | _ + 1, [], seen => seen
  | fuel + 1, I :: queue, seen =>
    let succs := ((symbolsOfSet I).filterMap fun X =>
      let J := goto0 g I X
      if J = ∅ then none else some J).dedup
    let news := succs.filter fun J => decide (J ∉ seen)
    lr0Explore g fuel (queue ++ news) (seen ++ news)

/-- The transition map of a state: for each grammar symbol with a nonempty
`goto`, the index of the successor state in the state list. -/
def transAt (g : GrammarE T N) (sts : List (Finset (Item0 T N)))
    (I : Finset (Item0 T N)) : List (Sym T N × Nat) :=
  (symbolsOfSet I).filterMap fun X =>
    let J := goto0 g I X
    if J = ∅ then none
    else (sts.findIdx? fun K => decide (K = J)).map fun j => (X, j)

/-- Modelled from the spec: `Grammar::lr0_automaton` (§4.7) — worklist
construction from `closure({[S' → ·S]})`, one state per distinct item set,
with transitions recorded; state 0 is the initial state. -/
def lr0_automatonE (g : GrammarE T N) : LR0AutoE T N :=
  let I0 := closure0 g ({startItem g} : Finset (Item0 T N))
  let sts := lr0Explore g (2 ^ (fullItemUniverse g).card + 1) [I0] [I0]
  ⟨sts.map fun I => ⟨sortedList I, transAt g sts I⟩, 0⟩

/-- `Grammar::slr1_table` (src/lalr/src/lr1.rs:360-418): build one
`LR1State` per LR(0) state, propagating the first conflict (or panic). -/
def slr1_tableE (g : GrammarE T N) : Except (BuildErr T N) (LR1TableE T N) :=
  let auto := lr0_automatonE g
  let follow := follow_setsE g none
  match mapE (buildState g follow) auto.states with
  | .error e => .error e
  | .ok sts => .ok ⟨sts, auto.start⟩

/-! ## Lexer generation (src/llex/src/macros.rs, src/llex-derive/src/lib.rs)

The DFA itself, its `find` (longest-prefix search) and the subset
construction live in the automata crate, outside src/; the generated code
interacts with them only through `find` and the `nfa_mapping`, so they are
abstract parameters here. -/

/-- `Match` (src/automata/src/matching.rs), start and end of a half-open
range (`end` is a Lean keyword, hence `mstart`/`mend`; the `span` field is
unused by the generated code). -/
structure MatchE where
  mstart : Nat
  mend : Nat
deriving DecidableEq

/-- The `nfa_sub` data of `parse_combined_nfa`
(src/llex-derive/src/lib.rs:214-259): each rule's sub-NFA contributes its
final states, its state count (for the offset), and its action. -/
structure SubNFA (A : Type) where
  finals : List Nat
  total : Nat
  act : A

/-- The `action_mapping` loop of `parse_combined_nfa`
(src/llex-derive/src/lib.rs:246-256): rule `i` (piece `p` here) maps each
of its final states, offset by the states already copied, to
`(action, precedence = i)`. -/
def buildActionMapping {A : Type} : List (SubNFA A) → Nat → Nat → List (Nat × A × Nat)
  | [], _, _ => []
  | s :: rest, off, p =>
    s.finals.map (fun f => (f + off, s.act, p)) ++ buildActionMapping rest (off + s.total) (p + 1)

/-- The full `action_mapping`: the initial offset is `NFA::new().total_states
= 1` (the fresh initial state of §4.5), precedences start at 0. -/
def actionMappingOf {A : Type} (subs : List (SubNFA A)) : List (Nat × A × Nat) :=
  buildActionMapping subs 1 0

/-- Rust's `Iterator::min_by_key` on the precedence component: fold that
keeps the current minimum and, among equal keys, the later element. -/
def minByPrec {A : Type} (l : List (Nat × A × Nat)) : Option (Nat × A × Nat) :=
  l.foldl
    (fun acc e =>
      match acc with
      | none => some e
      | some b => if e.2.2 ≤ b.2.2 then some e else some b)
    none

/-- The `dfa_actions` selection for one DFA state
(src/llex-derive/src/lib.rs:39-48, identically
src/llex/src/macros.rs:33-42): among the action-mapping entries whose NFA
state lies in the DFA state's NFA set, the one of minimum precedence. -/
def dfaActionFor {A : Type} (mapping : List (Nat × A × Nat)) (ns : Finset Nat) :
    Option A :=
  (minByPrec (mapping.filter fun e => decide (e.1 ∈ ns))).map fun e => e.2.1

/-- The lexer function generated by `llex`'s `lexer` macro
(src/llex/src/macros.rs:47-74), over an abstract alphabet `C`:
`find` is `LEXER_DFA.find`, `act` the action dispatch on the final state
(whose default arm yields `None`).  The recursion in the `None`-action
branch restarts on `input.drop 1` and is given fuel (one unit per
consumed element; the wrapper below supplies `length + 1`, enough because
each recursion strictly shortens a nonempty input). -/
def lexFn {C Tok : Type} (find : List C → Option (MatchE × Nat))
    (act : Nat → List C → Option Tok) : Nat → List C → Option (Tok × List C)
  | 0, _ => none
  | fuel + 1, input =>
    match find input with
    | none => none
    | some (m, q) =>
      if m.mend = m.mstart then none
      else
        match act q (input.take m.mend) with
        | some t => some (t, input.drop m.mend)
        | none => lexFn find act fuel (input.drop 1)

/-- The generated lexer entry point (src/llex/src/macros.rs:47). -/
def lexE {C Tok : Type} (find : List C → Option (MatchE × Nat))
    (act : Nat → List C → Option Tok) (input : List C) : Option (Tok × List C) :=
  lexFn find act (input.length + 1) input

/-- Result of the generated `advance`: a `(Result<Option<Tok>, E>,
remaining)` pair, or a panic (the catch-all `_ => std::panic!()` arm of
the final-state dispatch). -/
inductive AdvanceRes (E Tok C : Type) where
  | res (r : Except E (Option Tok)) (rem : List C)
  | panicked

/-- The `advance` method generated by `llex-derive`'s `lexer` macro
(src/llex-derive/src/lib.rs:79-120).  `acts q = none` models a final
state with no action arm (the panicking catch-all).  Fuel as in `lexFn`;
the fuel-out value is never reached for fuel exceeding the input length
because the recursion is guarded by `remaining.len() != 0`. -/
def advanceF {C Tok E : Type} (find : List C → Option (MatchE × Nat))
    (acts : Nat → Option (List C → Except E (Option Tok))) (noMatch : E) :
    Nat → List C → AdvanceRes E Tok C
  | 0, _ => .panicked
  | fuel + 1, input =>
    match find input with
    | none => .res (.error noMatch) input
    | some (m, q) =>
      let span := input.take m.mend
      match acts q with
      | none => .panicked
      | some a =>
        let remaining := input.drop m.mend
        match a span with
        | .ok (some t) => .res (.ok (some t)) remaining
        | .ok none =>
          let r1 := input.drop 1
          if r1.length = 0 then .res (.ok none) []
          else advanceF find acts noMatch fuel r1
        | .error e => .res (.error e) remaining

/-- The generated `advance` entry point (src/llex-derive/src/lib.rs:79). -/
def advanceE {C Tok E : Type} (find : List C → Option (MatchE × Nat))
    (acts : Nat → Option (List C → Except E (Option Tok))) (noMatch : E)
    (input : List C) : AdvanceRes E Tok C :=
  advanceF find acts noMatch (input.length + 1) input

/-! ## The regex parser state machine (src/regexp2/src/parser.rs)

`NFAParser`'s shift/reduce actions and regexp2's class.rs are not under
src/; the actions are abstract parameters, the `CharClass` operations are
modelled from the spec (§4.1).  Codepoints are `Nat`s. -/

/-- An inclusive range of Unicode scalar values (spec §3 `CharRange`). -/
structure CharRangeE where
  lo : Nat
  hi : Nat
deriving DecidableEq

/-- Modelled from the spec: `CharClass` (§3, §4.1) — a collection of
ranges, kept sorted, disjoint and coalesced by `normalizeRanges`. -/
structure CharClassE where
  ranges : List CharRangeE
deriving DecidableEq

/-- Coalesce a list of ranges sorted by `lo`: merge overlapping or
adjacent neighbours. -/
def coalesceAux (cur : CharRangeE) : List CharRangeE → List CharRangeE
  | [] => [cur]
  | r :: rest =>
    if r.lo ≤ cur.hi + 1 then coalesceAux ⟨cur.lo, max cur.hi r.hi⟩ rest
    else cur :: coalesceAux r rest

/-- Coalesce a list sorted by `lo`. -/
def coalesce : List CharRangeE → List CharRangeE
  | [] => []
  | r :: rest => coalesceAux r rest

/-- Modelled from the spec: normalization (§4.1) — sort by `start`,
coalesce overlapping/adjacent ranges. -/
def normalizeRanges (rs : List CharRangeE) : List CharRangeE :=
  coalesce (rs.insertionSort fun a b => a.lo ≤ b.lo)

/-- `CharClass::new()`. -/
def emptyClass : CharClassE := ⟨[]⟩

/-- `CharClass::new_single(c)`. -/
def newSingle (c : Char) : CharClassE := ⟨[⟨c.toNat, c.toNat⟩]⟩

/-- Modelled from the spec: `add_range` with re-normalization (§4.1). -/
def addRange (cc : CharClassE) (r : CharRangeE) : CharClassE :=
  ⟨normalizeRanges (cc.ranges ++ [r])⟩

/-- Modelled from the spec: `CharClass::copy_into(dst, src)` — merge the
source's ranges into the destination. -/
def copyInto (dst src : CharClassE) : CharClassE :=
  ⟨normalizeRanges (dst.ranges ++ src.ranges)⟩

/-- The pieces of `a` not covered by `b`. -/
def diffRange (a b : CharRangeE) : List CharRangeE :=
  (if a.lo < b.lo then [⟨a.lo, min a.hi (b.lo - 1)⟩] else []) ++
  (if b.hi < a.hi then [⟨max a.lo (b.hi + 1), a.hi⟩] else [])

/-- Subtract one range from every range of a list. -/
def diffRanges (as' : List CharRangeE) (b : CharRangeE) : List CharRangeE :=
  as'.flatMap fun a => diffRange a b

/-- Modelled from the spec: `complement()` (§4.1) — the set difference of
the Unicode scalar domain minus the surrogate gap
(`U+0000..=U+D7FF ∪ U+E000..=U+10FFFF`) and this class. -/
def complementE (cc : CharClassE) : CharClassE :=
  ⟨normalizeRanges (cc.ranges.foldl diffRanges
    [⟨0, 0xD7FF⟩, ⟨0xE000, 0x10FFFF⟩])⟩

/-- Modelled from the spec: the predefined classes (§4.1, §4.2).  Only
their identity as values matters to the claims settled here, so the
Unicode category tables are represented by their ASCII rows. -/
def decimalNumber : CharClassE := ⟨[⟨48, 57⟩]⟩

/-- Modelled from the spec: `letter` (ASCII rows, see `decimalNumber`). -/
def letterClass : CharClassE := ⟨[⟨65, 90⟩, ⟨97, 122⟩]⟩

/-- Modelled from the spec: `word` = letter ∪ digit ∪ `_`. -/
def wordClass : CharClassE :=
  ⟨normalizeRanges (letterClass.ranges ++ decimalNumber.ranges ++ [⟨95, 95⟩])⟩

/-- Modelled from the spec: `whitespace`. -/
def whitespaceClass : CharClassE := ⟨[⟨9, 13⟩, ⟨32, 32⟩]⟩

/-- Modelled from the spec: `all_but_newline`. -/
def allButNewline : CharClassE := complementE (newSingle (Char.ofNat 10))

/-- `Operator` (src/regexp2/src/parser.rs:296-304). -/
inductive Operator where
  | union
  | concatenation
  | kleeneStar
  | plus
  | optional
  | leftParen
  | emptyPlaceholder
deriving DecidableEq

/-- `ParseError` (src/regexp2/src/parser.rs:618-622). -/
inductive ParseError where
  | unbalancedOperators
  | unbalancedParentheses
  | emptyCharacterClass
deriving DecidableEq

/-- `ParserState` (src/regexp2/src/parser.rs:307-325) minus the two
action closures (passed as parameters).  Stacks have their top at the
head (`Vec::push`/`last`/`pop` act on the end of the Rust vector). -/
structure PState (Tv : Type) where
  stack : List Tv
  op_stack : List Operator
  paren_count_stack : List Nat
  escaped : Bool
  insert_concat : Bool
  in_char_class : Bool
  char_class_buf : CharClassE × Bool
  char_range_buf : Option Char × Option Char × Option Char

/-- The `shift_action` closure of the `Parser` trait. -/
abbrev ShiftFn (Tv : Type) :=
  List Tv → List Operator → CharClassE → Except ParseError (List Tv × List Operator)

/-- The `reduce_action` closure of the `Parser` trait. -/
abbrev ReduceFn (Tv : Type) :=
  List Tv → List Operator → Except ParseError (List Tv × List Operator)

/-- Results of the parser state machine: `.error (some e)` is a
`ParseError` propagated by `?`; `.error none` means a fuelled loop ran
out of fuel (a modelling artifact — the source loops carry no measure
because the reduce action is an arbitrary closure). -/
abbrev PRes (α : Type) := Except (Option ParseError) α

/-- `ParserState::reduce_stack` / `reduce_action`
(src/regexp2/src/parser.rs:550-552, 612-614). -/
def reduceStack {Tv : Type} (rf : ReduceFn Tv) (st : PState Tv) : PRes (PState Tv) :=
  match rf st.stack st.op_stack with
  | .error e => .error (some e)
  | .ok (s, o) => .ok { st with stack := s, op_stack := o }

/-- The decision table of `precedence_reduce_stack`
(src/regexp2/src/parser.rs:554-591). -/
def precReduceFlag (op lastOp : Operator) : Bool :=
  if lastOp = op ∧ lastOp ≠ .leftParen then true
  else if op = .union then
    lastOp = .concatenation ∨ lastOp = .kleeneStar ∨ lastOp = .plus ∨ lastOp = .optional
  else if op = .concatenation then
    lastOp = .kleeneStar ∨ lastOp = .plus ∨ lastOp = .optional
  else if op = .kleeneStar ∨ op = .plus ∨ op = .optional then false
  else if op = .leftParen then
    lastOp = .kleeneStar ∨ lastOp = .plus ∨ lastOp = .optional
  else false

/-- `ParserState::precedence_reduce_stack`
(src/regexp2/src/parser.rs:554-598). -/
def precReduceStack {Tv : Type} (rf : ReduceFn Tv) (st : PState Tv)
    (op : Operator) : PRes (PState Tv × Bool) :=
  let reduce :=
    match st.op_stack.head? with
    | some lastOp => precReduceFlag op lastOp
    | none => false
  if reduce then
    match reduceStack rf st with
    | .error e => .error e
    | .ok st' => .ok (st', true)
  else .ok (st, false)

/-- The `while self.precedence_reduce_stack(&Concatenation)? {}` loop of
`handle_char_class` (src/regexp2/src/parser.rs:375), fuelled. -/
def hccLoop {Tv : Type} (rf : ReduceFn Tv) : Nat → PState Tv → PRes (PState Tv)
  | 0, _ => .error none
  | fuel + 1, st =>
    match precReduceStack rf st .concatenation with
    | .error e => .error e
    | .ok (st1, b) => if b then hccLoop rf fuel st1 else .ok st1

/-- `ParserState::handle_char_class` (src/regexp2/src/parser.rs:374-385). -/
def handle_char_class {Tv : Type} (sf : ShiftFn Tv) (rf : ReduceFn Tv)
    (fuel : Nat) (st : PState Tv) (cc : CharClassE) : PRes (PState Tv) :=
  match hccLoop rf fuel st with
  | .error e => .error e
  | .ok st1 =>
    let st2 :=
      if st1.insert_concat then { st1 with op_stack := .concatenation :: st1.op_stack }
      else st1
    match sf st2.stack st2.op_stack cc with
    | .error e => .error (some e)
    | .ok (s, o) => .ok { st2 with stack := s, op_stack := o, insert_concat := true }

/-- `ParserState::handle_literal_char` (src/regexp2/src/parser.rs:369-372). -/
def handle_literal_char {Tv : Type} (sf : ShiftFn Tv) (rf : ReduceFn Tv)
    (fuel : Nat) (st : PState Tv) (c : Char) : PRes (PState Tv) :=
  handle_char_class sf rf fuel st (newSingle c)

/-- `ParserState::handle_union` (src/regexp2/src/parser.rs:387-395). -/
def handle_union {Tv : Type} (rf : ReduceFn Tv) (st : PState Tv) : PRes (PState Tv) :=
  match precReduceStack rf st .union with
  | .error e => .error e
  | .ok (st1, _) =>
    .ok { st1 with op_stack := .union :: st1.op_stack, insert_concat := false }

/-- `ParserState::handle_kleene_star` (src/regexp2/src/parser.rs:397-405). -/
def handle_kleene_star {Tv : Type} (rf : ReduceFn Tv) (st : PState Tv) :
    PRes (PState Tv) :=
  match precReduceStack rf st .kleeneStar with
  | .error e => .error e
  | .ok (st1, _) =>
    .ok { st1 with op_stack := .kleeneStar :: st1.op_stack, insert_concat := true }

/-- `ParserState::handle_plus` (src/regexp2/src/parser.rs:407-415). -/
def handle_plus {Tv : Type} (rf : ReduceFn Tv) (st : PState Tv) : PRes (PState Tv) :=
  match precReduceStack rf st .plus with
  | .error e => .error e
  | .ok (st1, _) =>
    .ok { st1 with op_stack := .plus :: st1.op_stack, insert_concat := true }

/-- `ParserState::handle_optional` (src/regexp2/src/parser.rs:417-425). -/
def handle_optional {Tv : Type} (rf : ReduceFn Tv) (st : PState Tv) : PRes (PState Tv) :=
  match precReduceStack rf st .optional with
  | .error e => .error e
  | .ok (st1, _) =>
    .ok { st1 with op_stack := .optional :: st1.op_stack, insert_concat := true }

/-- `ParserState::handle_left_paren` (src/regexp2/src/parser.rs:427-440). -/
def handle_left_paren {Tv : Type} (rf : ReduceFn Tv) (st : PState Tv) :
    PRes (PState Tv) :=
  match precReduceStack rf st .leftParen with
  | .error e => .error e
  | .ok (st1, _) =>
    let st2 :=
      if st1.insert_concat then { st1 with op_stack := .concatenation :: st1.op_stack }
      else st1
    .ok { st2 with
          op_stack := .leftParen :: st2.op_stack,
          paren_count_stack := st2.stack.length :: st2.paren_count_stack,
          insert_concat := false }

/-- The `while !op_stack.is_empty() && last != LeftParen { reduce }` loop
of `handle_right_paren` (src/regexp2/src/parser.rs:457-459), fuelled. -/
def rpLoop {Tv : Type} (rf : ReduceFn Tv) : Nat → PState Tv → PRes (PState Tv)
  | 0, _ => .error none
  | fuel + 1, st =>
    match st.op_stack.head? with
    | none => .ok st
    | some op =>
      if op = .leftParen then .ok st
      else
        match reduceStack rf st with
        | .error e => .error e
        | .ok st' => rpLoop rf fuel st'

/-- `ParserState::handle_right_paren` (src/regexp2/src/parser.rs:442-467).
An empty operator stack errors with `UnbalancedOperators` (the
`last().ok_or(...)` on line 443-446); only afterwards is an empty
paren-count stack reported as `UnbalancedParentheses` (lines 447-450). -/
def handle_right_paren {Tv : Type} (rf : ReduceFn Tv) (fuel : Nat)
    (st : PState Tv) : PRes (PState Tv) :=
  match st.op_stack.head? with
  | none => .error (some .unbalancedOperators)
  | some lastOp =>
    match st.paren_count_stack.head? with
    | none => .error (some .unbalancedParentheses)
    | some prevCount =>
      if lastOp = .leftParen ∧ prevCount = st.stack.length then
        let st1 := { st with op_stack := .emptyPlaceholder :: st.op_stack.tail }
        match reduceStack rf st1 with
        | .error e => .error e
        | .ok st2 => .ok { st2 with insert_concat := true }
      else
        match rpLoop rf fuel st with
        | .error e => .error e
        | .ok st1 =>
          match st1.op_stack.head? with
          | none => .error (some .unbalancedOperators)
          | some _ => .ok { st1 with op_stack := st1.op_stack.tail, insert_concat := true }

/-- `ParserState::handle_incomplete_char_range_buf`
(src/regexp2/src/parser.rs:494-508). -/
def handleIncompleteBuf {Tv : Type} (st : PState Tv) : PState Tv :=
  match st.char_range_buf with
  | (none, _, _) => { st with char_range_buf := (none, none, none) }
  | (some c0, s1, _) =>
    let cc1 := addRange st.char_class_buf.1 ⟨c0.toNat, c0.toNat⟩
    let cc2 :=
      match s1 with
      | some c1 => addRange cc1 ⟨c1.toNat, c1.toNat⟩
      | none => cc1
    { st with
      char_class_buf := (cc2, st.char_class_buf.2),
      char_range_buf := (none, none, none) }

/-- `ParserState::append_char_range_buf`
(src/regexp2/src/parser.rs:513-544).  In the second branch the source
clears the buffer and retries recursively; the retry necessarily lands in
the empty-first-slot branch and is inlined here. -/
def appendCharRangeBuf {Tv : Type} (st : PState Tv) (c : Char) : PState Tv :=
  match st.char_range_buf with
  | (none, b1, b2) => { st with char_range_buf := (some c, b1, b2) }
  | (some c0, none, _) =>
    if c = '-' then { st with char_range_buf := (some c0, some c, st.char_range_buf.2.2) }
    else
      { st with
        char_class_buf :=
          (addRange st.char_class_buf.1 ⟨c0.toNat, c0.toNat⟩, st.char_class_buf.2),
        char_range_buf := (some c, none, none) }
  | (some c0, some _, none) =>
    { st with
      char_class_buf :=
        (addRange st.char_class_buf.1 ⟨c0.toNat, c.toNat⟩, st.char_class_buf.2),
      char_range_buf := (none, none, none) }
  | (some _, some _, some _) => st

/-- `ParserState::clear_char_class_buf` (src/regexp2/src/parser.rs:546-548). -/
def clearCharClassBuf {Tv : Type} (st : PState Tv) : PState Tv :=
  { st with char_class_buf := (emptyClass, false) }

/-- `ParserState::handle_right_bracket` (src/regexp2/src/parser.rs:469-492). -/
def handle_right_bracket {Tv : Type} (sf : ShiftFn Tv) (rf : ReduceFn Tv)
    (fuel : Nat) (st : PState Tv) : PRes (PState Tv) :=
  let st0 := { st with in_char_class := false }
  if st0.char_range_buf.1 = none ∧ st0.char_class_buf.1.ranges = [] then
    .error (some .emptyCharacterClass)
  else
    let st1 := handleIncompleteBuf st0
    let cls :=
      if st1.char_class_buf.2 then complementE st1.char_class_buf.1
      else st1.char_class_buf.1
    match handle_char_class sf rf fuel st1 cls with
    | .error e => .error e
    | .ok st2 => .ok (clearCharClassBuf st2)

/-- The escape-sequence table of the default arm
(src/regexp2/src/parser.rs:238-257): `some` iff `is_special`. -/
def escSpecial (c : Char) : Option CharClassE :=
  if c = 'd' then some decimalNumber
  else if c = 'D' then some (complementE decimalNumber)
  else if c = 'w' then some wordClass
  else if c = 'W' then some (complementE wordClass)
  else if c = 'n' then some (newSingle (Char.ofNat 10))
  else if c = 's' then some whitespaceClass
  else if c = 'S' then some (complementE whitespaceClass)
  else none

/-- One character of `Parser::parse`'s dispatch
(src/regexp2/src/parser.rs:32-277), branch for branch. -/
def parseStep {Tv : Type} (sf : ShiftFn Tv) (rf : ReduceFn Tv) (fuel : Nat)
    (st : PState Tv) (c : Char) : PRes (PState Tv) :=
  if c = '|' then
    if st.escaped then
      let st1 := { st with escaped := false }
      if st1.in_char_class then .ok (appendCharRangeBuf st1 c)
      else handle_literal_char sf rf fuel st1 c
    else if st.in_char_class then .ok (appendCharRangeBuf st c)
    else handle_union rf st
  else if c = '*' then
    if st.escaped then
      let st1 := { st with escaped := false }
      if st1.in_char_class then .ok (appendCharRangeBuf st1 c)
      else handle_literal_char sf rf fuel st1 c
    else if st.in_char_class then .ok (appendCharRangeBuf st c)
    else handle_kleene_star rf st
  else if c = '+' then
    if st.escaped then
      let st1 := { st with escaped := false }
      if st1.in_char_class then .ok (appendCharRangeBuf st1 c)
      else handle_literal_char sf rf fuel st1 c
    else if st.in_char_class then .ok (appendCharRangeBuf st c)
    else handle_plus rf st
  else if c = '?' then
    if st.escaped then
      let st1 := { st with escaped := false }
      if st1.in_char_class then .ok (appendCharRangeBuf st1 c)
      else handle_literal_char sf rf fuel st1 c
    else if st.in_char_class then .ok (appendCharRangeBuf st c)
    else handle_optional rf st
  else if c = '(' then
    if st.escaped then
      let st1 := { st with escaped := false }
      if st1.in_char_class then .ok (appendCharRangeBuf st1 c)
      else handle_literal_char sf rf fuel st1 c
    else if st.in_char_class then .ok (appendCharRangeBuf st c)
    else handle_left_paren rf st
  else if c = ')' then
    if st.escaped then
      let st1 := { st with escaped := false }
      if st1.in_char_class then .ok (appendCharRangeBuf st1 c)
      else handle_literal_char sf rf fuel st1 c
    else if st.in_char_class then .ok (appendCharRangeBuf st c)
    else handle_right_paren rf fuel st
  else if c = '[' then
    if st.in_char_class then .ok (appendCharRangeBuf st c)
    else if st.escaped then handle_literal_char sf rf fuel { st with escaped := false } c
    else .ok { st with in_char_class := true, char_class_buf := (emptyClass, false) }
  else if c = ']' then
    if st.escaped then
      let st1 := { st with escaped := false }
      if st1.in_char_class then .ok (appendCharRangeBuf st1 c)
      else handle_literal_char sf rf fuel st1 c
    else if st.in_char_class then handle_right_bracket sf rf fuel st
    else handle_literal_char sf rf fuel st c
  else if c = '\\' then
    if st.escaped then handle_literal_char sf rf fuel { st with escaped := false } c
    else .ok { st with escaped := true }
  else if c = '^' then
    if st.escaped then
      let st1 := { st with escaped := false }
      if st1.in_char_class then .ok (appendCharRangeBuf st1 c)
      else handle_literal_char sf rf fuel st1 c
    else if st.in_char_class then
      if st.char_range_buf.1 = none ∧ st.char_class_buf.1.ranges = [] then
        .ok { st with char_class_buf := (st.char_class_buf.1, true) }
      else .ok (appendCharRangeBuf st c)
    else handle_literal_char sf rf fuel st c
  else if c = '.' then
    if st.escaped then
      let st1 := { st with escaped := false }
      if st1.in_char_class then .ok (appendCharRangeBuf st1 c)
      else handle_literal_char sf rf fuel st1 c
    else if st.in_char_class then .ok (appendCharRangeBuf st c)
    else handle_char_class sf rf fuel st allButNewline
  else
    if st.escaped then
      let st1 := { st with escaped := false }
      match escSpecial c with
      | some cc =>
        if st1.in_char_class then
          let st2 := handleIncompleteBuf st1
          .ok { st2 with
                char_class_buf :=
                  (copyInto st2.char_class_buf.1 cc, st2.char_class_buf.2) }
        else handle_char_class sf rf fuel st1 cc
      | none =>
        if st1.in_char_class then .ok (appendCharRangeBuf st1 c)
        else handle_literal_char sf rf fuel st1 c
    else if st.in_char_class then .ok (appendCharRangeBuf st c)
    else handle_literal_char sf rf fuel st c

/-- The character loop of `Parser::parse` (src/regexp2/src/parser.rs:29-280). -/
def parseChars {Tv : Type} (sf : ShiftFn Tv) (rf : ReduceFn Tv) (fuel : Nat) :
    List Char → PState Tv → PRes (PState Tv)
  | [], st => .ok st
  | c :: rest, st =>
    match parseStep sf rf fuel st c with
    | .error e => .error e
    | .ok st' => parseChars sf rf fuel rest st'

/-- The final `while !op_stack.is_empty() { reduce_stack }` loop of
`Parser::parse` (src/regexp2/src/parser.rs:286-288), fuelled. -/
def finLoop {Tv : Type} (rf : ReduceFn Tv) : Nat → PState Tv → PRes (PState Tv)
  | 0, _ => .error none
  | fuel + 1, st =>
    if st.op_stack = [] then .ok st
    else
      match reduceStack rf st with
      | .error e => .error e
      | .ok st' => finLoop rf fuel st'

/-- The fresh `ParserState` (src/regexp2/src/parser.rs:351-367). -/
def initPState (Tv : Type) : PState Tv :=
  ⟨[], [], [], false, false, false, (emptyClass, false), (none, none, none)⟩

/-- `Parser::parse` (src/regexp2/src/parser.rs:21-292): run the dispatch
over the characters; on empty input push `EmptyPlaceholder`; reduce the
operator stack to exhaustion; the result is the top of the value stack. -/
def parseE {Tv : Type} (sf : ShiftFn Tv) (rf : ReduceFn Tv) (fuel : Nat)
    (expr : List Char) : PRes (Option Tv) :=
  match parseChars sf rf fuel expr (initPState Tv) with
  | .error e => .error e
  | .ok st1 =>
    let st2 :=
      if expr.length = 0 then { st1 with op_stack := [.emptyPlaceholder] ++ st1.op_stack }
      else st1
    match finLoop rf fuel st2 with
    | .error e => .error e
    | .ok st3 => .ok st3.stack.head?

/-! ## Properties used by the theorems -/

/-- Cell growth across table-construction steps: actions and the
endmarker, once set, stay set (`set_action` never overwrites). -/
def ActsMono (ls ls' : LR1StateE T N) : Prop :=
  (∀ x v, ls.actions x = some v → ls'.actions x = some v) ∧
  (∀ v, ls.endmarker = some v → ls'.endmarker = some v)

/-- Growth for the item phase, which never touches the GOTO map. -/
def StMono (ls ls' : LR1StateE T N) : Prop :=
  ActsMono ls ls' ∧ ls'.goto = ls.goto

/-- The closure property of the spec (§4.9) for a set of LR(1) items:
for `[A → α·Bβ, a]` in the set and every production `B → γ`, the set
contains `[B → ·γ, b]` for every terminal `b` of the compositional
`FIRST(β)`, and `[B → ·γ, a]` exactly when `β` is nullable (in
particular when `β` is empty). -/
def lr1ClosedUnder (g : GrammarE T N) (fs : N → Finset T × Bool)
    (K : Finset (LR1ItemE T N)) : Prop :=
  ∀ it ∈ K, ∀ B, it.nextSymbol = some (Sym.nt B) → ∀ r ∈ g.rules B,
    (∀ t' ∈ (seqFirst fs (it.rhs.drop (it.pos + 1))).1,
        (⟨B, r, 0, some t'⟩ : LR1ItemE T N) ∈ K) ∧
    ((seqFirst fs (it.rhs.drop (it.pos + 1))).2 = true →
        (⟨B, r, 0, it.la⟩ : LR1ItemE T N) ∈ K)

/-- A symbol's nonterminal, when it has one, is listed in the grammar. -/
def ntIn (g : GrammarE T N) : Sym T N → Prop
  | .t _ => True
  | .nt B => B ∈ g.nts

instance (g : GrammarE T N) (sy : Sym T N) : Decidable (ntIn g sy) :=
  match sy with
  | .t _ => .isTrue trivial
  | .nt B => inferInstanceAs (Decidable (B ∈ g.nts))

/-- The claim's hypothesis that every referenced nonterminal has a rule
entry, in the form the finite universe needs: every nonterminal occurring
in a body of `I` or of a grammar rule is listed in `g.nts`. -/
def ClosWF (g : GrammarE T N) (I : Finset (LR1ItemE T N)) : Prop :=
  (∀ it ∈ I, ∀ sy ∈ it.rhs, ntIn g sy) ∧
  (∀ A ∈ g.nts, ∀ r ∈ g.rules A, ∀ sy ∈ r, ntIn g sy)

instance (g : GrammarE T N) (I : Finset (LR1ItemE T N)) : Decidable (ClosWF g I) :=
  inferInstanceAs (Decidable
    ((∀ it ∈ I, ∀ sy ∈ it.rhs, ntIn g sy) ∧
     (∀ A ∈ g.nts, ∀ r ∈ g.rules A, ∀ sy ∈ r, ntIn g sy)))

/-! ## Concrete instances used by witnesses and counterexamples -/

/-- The two-rule grammar `S' → S`, `S → a` (nonterminals `S' = 0`,
`S = 1`, terminal `a = 0`): conflict-free, so `slr1_table` succeeds. -/
def gLin : GrammarE Nat Nat :=
  ⟨0, [0, 1], fun n => if n = 0 then [[Sym.nt 1]] else if n = 1 then [[Sym.t 0]] else []⟩

/-- The grammar `E → S`, `S → S | a` (`E = 0`, `S = 1`, `a = 0`).  The
LR(0) state `{[E → S·], [S → S·]}` demands both Accept and a Reduce on the
endmarker cell, which `set_action` answers by unwinding. -/
def gPanic : GrammarE Nat Nat :=
  ⟨0, [0, 1], fun n =>
    if n = 0 then [[Sym.nt 1]] else if n = 1 then [[Sym.nt 1], [Sym.t 0]] else []⟩

/-- The unit-cycle grammar `E → T`, `T → E` (`E = 0`, `T = 1`). -/
def gCyc : GrammarE Nat Nat :=
  ⟨0, [0, 1], fun n => if n = 0 then [[Sym.nt 1]] else if n = 1 then [[Sym.nt 0]] else []⟩

/-- The item `[E → ·T]` of `gCyc`. -/
def itET : Item0 Nat Nat := ⟨0, [Sym.nt 1], 0⟩

/-- The item `[T → ·E]` of `gCyc`. -/
def itTE : Item0 Nat Nat := ⟨1, [Sym.nt 0], 0⟩

/-- The table `slr1_table` computes for `gLin`. -/
def wTbl : LR1TableE Nat Nat :=
  match slr1_tableE gLin with
  | .ok t => t
  | .error _ => ⟨[], 0⟩

/-- State 0 of `gLin`'s LR(0) automaton. -/
def wSt : LR0StateE Nat Nat := ((lr0_automatonE gLin).states.get? 0).getD ⟨[], []⟩

/-- State 0 of `gLin`'s SLR(1) table. -/
def wLs : LR1StateE Nat Nat := (wTbl.states.get? 0).getD emptyLR1State

/-- Grammar for the closure witness: `0 → 1`, `1 → t5`. -/
def g3w : GrammarE Nat Nat :=
  ⟨0, [0, 1], fun n => if n = 0 then [[Sym.nt 1]] else if n = 1 then [[Sym.t 5]] else []⟩

/-- FIRST sets for `g3w`: `FIRST(1) = {5}`, nothing nullable. -/
def fs3w : Nat → Finset Nat × Bool := fun n => if n = 1 then ({5}, false) else (∅, false)

/-- Initial LR(1) item set `{[0 → ·1, $]}` for the closure witness. -/
def I3w : Finset (LR1ItemE Nat Nat) := {⟨0, [Sym.nt 1], 0, none⟩}

/-- A two-symbol `find`: on inputs starting `0, 1` the longest match has
length 2 ending in final state 1; on inputs starting `1` it has length 1
ending in final state 2. -/
def cFind : List Nat → Option (MatchE × Nat) := fun l =>
  match l with
  | 0 :: 1 :: _ => some (⟨0, 2⟩, 1)
  | 1 :: _ => some (⟨0, 1⟩, 2)
  | _ => none

/-- Actions for `cFind`: final state 1 (the length-2 match) skips
(`None`), final state 2 emits token 7. -/
def cAct : Nat → List Nat → Option Nat := fun q _ => if q = 2 then some 7 else none

/-- A `find` that always reports an empty match at final state 5. -/
def wFind9 : List Nat → Option (MatchE × Nat) := fun _ => some (⟨0, 0⟩, 5)

/-- Actions for `wFind9` (never consulted). -/
def wAct9 : Nat → List Nat → Option Nat := fun _ _ => none

/-- A `find` matching one element into final state 0. -/
def wFind10 : List Nat → Option (MatchE × Nat) := fun _ => some (⟨0, 1⟩, 0)

/-- Actions for `wFind10`: every final state's action fails with error 42. -/
def wActs10 : Nat → Option (List Nat → Except Nat (Option Nat)) :=
  fun _ => some (fun _ => .error 42)

/-- Shift action that ignores the class and leaves both stacks unchanged
(the `')'` paths under scrutiny never invoke it). -/
def trivS : ShiftFn Unit := fun s o _ => .ok (s, o)

/-- Reduce action that leaves both stacks unchanged (never invoked on the
`')'` error paths). -/
def trivR : ReduceFn Unit := fun s o => .ok (s, o)

/-- A parser state with one pending operator and no `(` ever opened. -/
def stUnion : PState Unit := { initPState Unit with op_stack := [Operator.union] }

/-- Two rules whose sub-NFAs each have one final state (NFA state 0,
one state total), with actions 10 and 20. -/
def subs6 : List (SubNFA Nat) := [⟨[0], 1, 10⟩, ⟨[0], 1, 20⟩]

/-! # Theorems -/

/-- On the unit-cycle grammar, `item_closure` starting from either
singleton keeps regenerating the other item, so no amount of fuel
suffices: the source recursion never returns. -/
theorem itemClosureF_cyc_none (n : Nat) :
    itemClosureF gCyc n ({itET} : Finset (Item0 Nat Nat)) = none ∧
    itemClosureF gCyc n ({itTE} : Finset (Item0 Nat Nat)) = none := by
  induction n with
  | zero => exact ⟨rfl, rfl⟩
  | succ n ih =>
    constructor
    · show itemClosureF gCyc (n + 1) {itET} = none
      rw [itemClosureF]
      have h : genExcl gCyc ({itET} : Finset (Item0 Nat Nat)) = {itTE} := by decide
      rw [h, if_neg (by decide : ¬ ({itTE} : Finset (Item0 Nat Nat)) = ∅), ih.2]
      rfl
    · show itemClosureF gCyc (n + 1) {itTE} = none
      rw [itemClosureF]
      have h : genExcl gCyc ({itTE} : Finset (Item0 Nat Nat)) = {itET} := by decide
      rw [h, if_neg (by decide : ¬ ({itET} : Finset (Item0 Nat Nat)) = ∅), ih.1]
      rfl

/-- C5: the claim states that for every grammar whose referenced
nonterminals all have rule entries, `item_closure` terminates and computes
the least closed superset.  The code is wrong: on the unit-cycle grammar
`E → T`, `T → E` (accepted by `Grammar::new`) with `I = {[E → ·T]}`, the
pass over `{[E → ·T]}` adds `[T → ·E]`, the recursive call on that
singleton adds `[E → ·T]` again, and so on — `added` is never empty and
the recursion of src/lalr/src/lalr.rs:65-101 never terminates (a stack
overflow in Rust), contradicting the function's own documentation
("Compute the closure of items") and the spec's §4.7.  Formally: no fuel
makes the fuelled embedding return. -/
theorem item_closure_diverges_on_unit_cycle :
    ¬ itemClosureTerminates gCyc ({itET} : Finset (Item0 Nat Nat)) := by
  rintro ⟨fuel, r, h⟩
  rw [(itemClosureF_cyc_none fuel).1] at h
  exact Option.noConfusion h

/-- C4: the claim states that `lr0_set` terminates with one state entry
per distinct reachable item set and recorded transitions.  The code is
wrong: its duplicate check `if states.contains(&new_state) {}` has an
empty body, no state is ever appended to the `states` vector after the
initial one, and no transition is ever inserted (the maps stay
`BTreeMap::new()`); on grammars with goto cycles the loop additionally
never terminates.  On the failing input `S' → S`, `S → a` the loop does
terminate, and the result is a single state — the initial closure
`{[S' → ·S], [S → ·a]}` — with an empty transition map, although three
distinct nonempty item sets are reachable. -/
theorem lr0_set_single_state_no_transitions :
    lr0_setF gLin 30 =
      some ⟨[({⟨0, [Sym.nt 1], 0⟩, ⟨1, [Sym.t 0], 0⟩}, [])]⟩ := by decide

/-- C2: the claim states that `slr1_table` never panics and reports every
collision — including Accept colliding with a Reduce — as an `Err` value.
The code is wrong: `determine_conflict` returns `None` for any collision
involving `Accept`, and `set_action` calls `.unwrap()` on that result
(src/lalr/src/lr1.rs:79, 91), unwinding instead of returning — contrary
to `set_action`'s own doc comment ("returning an `LRConflict` error [when]
some action already exists").  The collision is reachable: on the grammar
`E → S`, `S → S | a`, the LR(0) state `{[E → S·], [S → S·]}` first sets
Accept on the endmarker cell (for `[E → S·]`, `E` the start symbol) and
then attempts `Reduce(S → S)` there (endmarker ∈ FOLLOW(S)), so the whole
table construction panics. -/
theorem slr1_table_panics_on_accept_reduce :
    slr1_tableE gPanic = .error .panicked := rfl

/-- C9: when the DFA's longest match is empty (`m.end() == m.start()`),
the generated lexer function returns `None` immediately — before
dispatching any action, consuming any input or recursing — so every
emitted token corresponds to a non-empty match
(src/llex/src/macros.rs:54-56). -/
theorem lexer_empty_match_returns_none {C Tok : Type}
    (find : List C → Option (MatchE × Nat)) (act : Nat → List C → Option Tok)
    (input : List C) (m : MatchE) (q : Nat)
    (hfind : find input = some (m, q)) (hemp : m.mend = m.mstart) :
    lexE find act input = none := by
  rw [lexE]
  simp only [lexFn]
  rw [hfind]
  simp [hemp]

/-- Witness for C9 at a concrete `find` reporting an empty match. -/
theorem lexer_empty_match_returns_none_witness :
    wFind9 ([] : List Nat) = some (⟨0, 0⟩, 5) ∧
    (⟨0, 0⟩ : MatchE).mend = (⟨0, 0⟩ : MatchE).mstart ∧
    lexE wFind9 wAct9 ([] : List Nat) = none :=
  ⟨rfl, rfl, lexer_empty_match_returns_none wFind9 wAct9 [] ⟨0, 0⟩ 5 rfl rfl⟩

/-- C10: when the matched rule's action returns `Err(e)`, the generated
`advance` returns `(Err(e), remaining)` with `remaining` the input minus
the matched prefix — the match is consumed even on an action error
(src/llex-derive/src/lib.rs:98, 118). -/
theorem advance_error_consumes_match {C Tok E : Type}
    (find : List C → Option (MatchE × Nat))
    (acts : Nat → Option (List C → Except E (Option Tok))) (noMatch : E)
    (input : List C) (m : MatchE) (q : Nat)
    (a : List C → Except E (Option Tok)) (e : E)
    (hfind : find input = some (m, q)) (hacts : acts q = some a)
    (ha : a (input.take m.mend) = .error e) :
    advanceE find acts noMatch input =
      .res (.error e) (input.drop m.mend) := by
  rw [advanceE]
  simp only [advanceF]
  rw [hfind]
  simp only []
  rw [hacts]
  simp only []
  rw [ha]

/-- Witness for C10 at a concrete failing action. -/
theorem advance_error_consumes_match_witness :
    wFind10 [9] = some (⟨0, 1⟩, 0) ∧
    wActs10 0 = some (fun _ => .error 42) ∧
    advanceE wFind10 wActs10 99 [9] = .res (.error 42) (List.drop 1 [9]) :=
  ⟨rfl, rfl,
    advance_error_consumes_match wFind10 wActs10 99 [9] ⟨0, 1⟩ 0 (fun _ => .error 42) 42
      rfl rfl rfl⟩

/-- C7 counterexample: the claim states that a `None` action makes the
scanner consume the whole matched prefix and continue from the first
position after the match.  On input `[0, 1]`, `cFind` reports a longest
match of length 2 whose action is `None`; scanning from after the match
(`drop 2`, i.e. the empty rest) yields nothing, but the generated lexer
actually yields `some (7, [])` — it dropped only one element and
re-matched `[1]` (the `skip(1)` of src/llex/src/macros.rs:70) — so the
two results differ and the claim is false. -/
theorem lexer_none_action_counterexample :
    cFind [0, 1] = some (⟨0, 2⟩, 1) ∧
    cAct 1 (List.take 2 [0, 1]) = none ∧
    lexE cFind cAct [0, 1] ≠ lexE cFind cAct (List.drop 2 [0, 1]) := by
  refine ⟨rfl, rfl, ?_⟩
  decide

/-- C7 (amended): when the DFA finds a non-empty longest match whose
action returns `None`, the generated lexer consumes exactly ONE input
element and continues scanning from position 1
(src/llex/src/macros.rs:69-72: `input.chars().skip(1)`), not from the end
of the match.  The `find` contract of §4.4 (a prefix match within the
input) supplies `m.start() = 0` and `m.end() ≤ |input|`. -/
theorem lexer_none_action_skips_one {C Tok : Type}
    (find : List C → Option (MatchE × Nat)) (act : Nat → List C → Option Tok)
    (input : List C) (m : MatchE) (q : Nat)
    (hfind : find input = some (m, q)) (hne : m.mend ≠ m.mstart)
    (hact : act q (input.take m.mend) = none)
    (hstart : m.mstart = 0) (hlen : m.mend ≤ input.length) :
    lexE find act input = lexE find act (input.drop 1) := by
  have hpos : 1 ≤ input.length := by omega
  have hL : (input.drop 1).length + 1 = input.length := by
    simp only [List.length_drop]
    omega
  rw [lexE, lexE, hL]
  conv_lhs => rw [show input.length + 1 = input.length + 1 from rfl]
  simp only [lexFn]
  rw [hfind]
  simp only [if_neg hne]
  rw [hact]

/-- Witness for the amended C7: at the concrete scanner both sides of the
equation compute to `some (7, [])`. -/
theorem lexer_none_action_skips_one_witness :
    cFind [0, 1] = some (⟨0, 2⟩, 1) ∧
    (⟨0, 2⟩ : MatchE).mend ≠ (⟨0, 2⟩ : MatchE).mstart ∧
    cAct 1 (List.take 2 [0, 1]) = none ∧
    lexE cFind cAct [0, 1] = lexE cFind cAct (List.drop 1 [0, 1]) :=
  ⟨rfl, by decide, rfl,
    lexer_none_action_skips_one cFind cAct [0, 1] ⟨0, 2⟩ 1 rfl (by decide) rfl rfl
      (by decide)⟩

/-- C8 counterexample: the claim states that an unescaped `')'` outside a
character class with no matching `'('` yields
`Err(UnbalancedParentheses)`.  On the one-character expression `")"`,
`handle_right_paren` first does `op_stack.last().ok_or(UnbalancedOperators)`
(src/regexp2/src/parser.rs:443-446) and the operator stack is empty, so
`parse` returns `Err(UnbalancedOperators)` instead.  No shift or reduce
action runs before the error, so the trivial actions are faithful. -/
theorem parse_rparen_unbalanced_operators :
    parseE trivS trivR 9 [')'] = .error (some ParseError.unbalancedOperators) ∧
    parseE trivS trivR 9 [')'] ≠ .error (some ParseError.unbalancedParentheses) := by
  have base : parseE trivS trivR 9 [')'] =
      .error (some ParseError.unbalancedOperators) := rfl
  refine ⟨base, ?_⟩
  rw [base]
  intro h
  injection h with h'
  injection h' with h''
  exact ParseError.noConfusion h''

/-- C8 (amended): reading an unescaped `')'` outside a character class
errors as follows (src/regexp2/src/parser.rs:442-450): if the operator
stack is empty, `Err(UnbalancedOperators)`; if the operator stack is
nonempty but no `'('` was ever opened (the paren-count stack, which is
never popped, is empty), `Err(UnbalancedParentheses)`. -/
theorem handle_right_paren_errors {Tv : Type} (rf : ReduceFn Tv) (fuel : Nat)
    (st : PState Tv) :
    (st.op_stack = [] →
      handle_right_paren rf fuel st = .error (some ParseError.unbalancedOperators)) ∧
    (st.op_stack ≠ [] → st.paren_count_stack = [] →
      handle_right_paren rf fuel st = .error (some ParseError.unbalancedParentheses)) := by
  constructor
  · intro h
    simp [handle_right_paren, h]
  · intro h1 h2
    obtain ⟨op, rest, hop⟩ : ∃ op rest, st.op_stack = op :: rest := by
      cases hst : st.op_stack with
      | nil => exact absurd hst h1
      | cons op rest => exact ⟨op, rest, rfl⟩
    simp [handle_right_paren, hop, h2]

/-- Witness for the amended C8 at a concrete state with a pending `|`
operator and no `(` ever opened. -/
theorem handle_right_paren_errors_witness :
    stUnion.op_stack ≠ [] ∧ stUnion.paren_count_stack = [] ∧
    handle_right_paren trivR 5 stUnion = .error (some ParseError.unbalancedParentheses) :=
  ⟨by simp [stUnion, initPState], rfl,
    (handle_right_paren_errors trivR 5 stUnion).2 (by simp [stUnion, initPState]) rfl⟩

/-- The fold underlying `min_by_key`: the result comes from the list or
the accumulator and its precedence is minimal among both. -/
theorem minByPrec_fold_spec {A : Type} (l : List (Nat × A × Nat)) :
    ∀ (acc : Option (Nat × A × Nat)) (r : Nat × A × Nat),
      l.foldl
        (fun acc e =>
          match acc with
          | none => some e
          | some b => if e.2.2 ≤ b.2.2 then some e else some b)
        acc = some r →
      (acc = some r ∨ r ∈ l) ∧ (∀ e ∈ l, r.2.2 ≤ e.2.2) ∧
      (∀ b, acc = some b → r.2.2 ≤ b.2.2) := by
  induction l with
  | nil =>
    intro acc r h
    simp only [List.foldl_nil] at h
    exact ⟨Or.inl h, by simp, fun b hb => by rw [h] at hb; cases hb; exact le_refl _⟩
  | cons e t ih =>
    intro acc r h
    simp only [List.foldl_cons] at h
    cases acc with
    | none =>
      simp only at h
      obtain ⟨hsrc, hmin, hacc⟩ := ih _ r h
      refine ⟨?_, ?_, fun b hb => by cases hb⟩
      · cases hsrc with
        | inl hs =>
          injection hs with hs'
          exact Or.inr (by rw [← hs']; exact List.mem_cons_self e t)
        | inr hs => exact Or.inr (List.mem_cons_of_mem e hs)
      · intro e' he'
        rcases List.mem_cons.mp he' with hee | het
        · rw [hee]; exact hacc e rfl
        · exact hmin e' het
    | some b0 =>
      simp only at h
      by_cases hle : e.2.2 ≤ b0.2.2
      · rw [if_pos hle] at h
        obtain ⟨hsrc, hmin, hacc⟩ := ih _ r h
        refine ⟨?_, ?_, ?_⟩
        · cases hsrc with
          | inl hs =>
            injection hs with hs'
            exact Or.inr (by rw [← hs']; exact List.mem_cons_self e t)
          | inr hs => exact Or.inr (List.mem_cons_of_mem e hs)
        · intro e' he'
          rcases List.mem_cons.mp he' with hee | het
          · rw [hee]; exact hacc e rfl
          · exact hmin e' het
        · intro b hb
          injection hb with hb'
          have h1 := hacc e rfl
          rw [← hb']
          omega
      · rw [if_neg hle] at h
        obtain ⟨hsrc, hmin, hacc⟩ := ih _ r h
        refine ⟨?_, ?_, ?_⟩
        · cases hsrc with
          | inl hs => exact Or.inl hs
          | inr hs => exact Or.inr (List.mem_cons_of_mem e hs)
        · intro e' he'
          rcases List.mem_cons.mp he' with hee | het
          · have h1 := hacc b0 rfl
            rw [hee]
            omega
          · exact hmin e' het
        · intro b hb
          injection hb with hb'
          have h1 := hacc b0 rfl
          rw [← hb']
          exact h1

/-- `minByPrec` of a nonempty list succeeds. -/
theorem minByPrec_isSome {A : Type} (l : List (Nat × A × Nat)) (hne : l ≠ []) :
    ∃ r, minByPrec l = some r := by
  have go : ∀ (t : List (Nat × A × Nat)) (b : Nat × A × Nat),
      ∃ r, t.foldl
        (fun acc e =>
          match acc with
          | none => some e
          | some b => if e.2.2 ≤ b.2.2 then some e else some b)
        (some b) = some r := by
    intro t
    induction t with
    | nil => exact fun b => ⟨b, rfl⟩
    | cons e t ihh =>
      intro b
      simp only [List.foldl_cons]
      by_cases hle : e.2.2 ≤ b.2.2
      · simpa only [if_pos hle] using ihh e
      · simpa only [if_neg hle] using ihh b
  cases l with
  | nil => exact absurd rfl hne
  | cons e t =>
    rw [minByPrec]
    simp only [List.foldl_cons]
    exact go t e

/-- Every entry of the combined action mapping carries the action of the
rule its precedence indexes. -/
theorem mem_buildActionMapping {A : Type} :
    ∀ (subs : List (SubNFA A)) (off p0 : Nat) (e : Nat × A × Nat),
      e ∈ buildActionMapping subs off p0 →
      ∃ i sub, subs.get? i = some sub ∧ e.2.2 = p0 + i ∧ e.2.1 = sub.act := by
  intro subs
  induction subs with
  | nil => intro off p0 e h; exact absurd h (by simp [buildActionMapping])
  | cons s rest ih =>
    intro off p0 e h
    rw [buildActionMapping] at h
    cases List.mem_append.mp h with
    | inl hm =>
      obtain ⟨f, _, hfe⟩ := List.mem_map.mp hm
      exact ⟨0, s, rfl, by rw [← hfe]; simp, by rw [← hfe]⟩
    | inr hm =>
      obtain ⟨i, sub, hget, hp, ha⟩ := ih (off + s.total) (p0 + 1) e hm
      exact ⟨i + 1, sub, by simpa using hget, by omega, ha⟩

/-- C6: for every ordered rule list and every DFA final state whose NFA
set contains final states of more than one rule, the generated assignment
selects the action of the rule with minimum precedence (the rule's index
in the input list); ties within a rule are immaterial since all its
entries carry the same action (src/llex-derive/src/lib.rs:39-48,
src/llex/src/macros.rs:33-42). -/
theorem dfa_action_min_precedence {A : Type} (subs : List (SubNFA A))
    (ns : Finset Nat) (e1 e2 : Nat × A × Nat)
    (h1 : e1 ∈ (actionMappingOf subs).filter (fun e => decide (e.1 ∈ ns)))
    (_h2 : e2 ∈ (actionMappingOf subs).filter (fun e => decide (e.1 ∈ ns)))
    (_hne : e1.2.2 ≠ e2.2.2) :
    ∃ e sub, subs.get? e.2.2 = some sub ∧ e.2.1 = sub.act ∧
      dfaActionFor (actionMappingOf subs) ns = some sub.act ∧
      e ∈ (actionMappingOf subs).filter (fun e => decide (e.1 ∈ ns)) ∧
      (∀ e' ∈ (actionMappingOf subs).filter (fun e => decide (e.1 ∈ ns)),
        e.2.2 ≤ e'.2.2) := by
  have hne' : (actionMappingOf subs).filter (fun e => decide (e.1 ∈ ns)) ≠ [] :=
    List.ne_nil_of_mem h1
  obtain ⟨r, hr⟩ := minByPrec_isSome _ hne'
  obtain ⟨hsrc, hmin, _⟩ := minByPrec_fold_spec _ none r hr
  have hrmem : r ∈ (actionMappingOf subs).filter (fun e => decide (e.1 ∈ ns)) := by
    cases hsrc with
    | inl h => cases h
    | inr h => exact h
  have hrmap : r ∈ actionMappingOf subs := List.mem_of_mem_filter hrmem
  obtain ⟨i, sub, hget, hp, ha⟩ := mem_buildActionMapping subs 1 0 r hrmap
  refine ⟨r, sub, ?_, ha, ?_, hrmem, hmin⟩
  · rw [hp]; simpa using hget
  · rw [dfaActionFor, hr]
    simp [ha]

/-- Membership in the lookahead set `FIRST(βa)` of `lr1_closure`: a
`some`-lookahead of `FIRST(β)`, or the item's own lookahead when `β` is
nullable. -/
theorem mem_firstBetaA {fs : N → Finset T × Bool} {it : LR1ItemE T N} {la : Option T} :
    la ∈ firstBetaA fs it ↔
      (∃ t', t' ∈ (seqFirst fs (it.rhs.drop (it.pos + 1))).1 ∧ la = some t') ∨
      ((seqFirst fs (it.rhs.drop (it.pos + 1))).2 = true ∧ la = it.la) := by
  cases hp : (seqFirst fs (it.rhs.drop (it.pos + 1))).2 <;>
    simp [firstBetaA, hp, eq_comm]

/-- Membership in one `lr1_closure` pass: an item generated from a member
whose next symbol is a nonterminal, for some production and lookahead. -/
theorem mem_genLR1 {g : GrammarE T N} {fs : N → Finset T × Bool}
    {s : Finset (LR1ItemE T N)} {x : LR1ItemE T N} :
    x ∈ genLR1 g fs s ↔
      ∃ it ∈ s, ∃ B, it.nextSymbol = some (Sym.nt B) ∧
        ∃ r ∈ g.rules B, ∃ la ∈ firstBetaA fs it, x = ⟨B, r, 0, la⟩ := by
  constructor
  · intro hx
    rcases Finset.mem_biUnion.mp hx with ⟨it, hit, hx2⟩
    cases hnext : it.nextSymbol with
    | none =>
      rw [hnext] at hx2
      exact absurd hx2 (Finset.not_mem_empty x)
    | some sy =>
      cases sy with
      | t a =>
        rw [hnext] at hx2
        exact absurd hx2 (Finset.not_mem_empty x)
      | nt B =>
        rw [hnext] at hx2
        rcases Finset.mem_biUnion.mp hx2 with ⟨r, hr, hx3⟩
        rcases Finset.mem_image.mp hx3 with ⟨la, hla, hxe⟩
        exact ⟨it, hit, B, hnext, r, List.mem_toFinset.mp hr, la, hla, hxe.symm⟩
  · rintro ⟨it, hit, B, hnext, r, hr, la, hla, rfl⟩
    refine Finset.mem_biUnion.mpr ⟨it, hit, ?_⟩
    rw [hnext]
    exact Finset.mem_biUnion.mpr
      ⟨r, List.mem_toFinset.mpr hr, Finset.mem_image.mpr ⟨la, hla, rfl⟩⟩

/-- The closure property of `lr1ClosedUnder` is exactly `genLR1`-closedness. -/
theorem lr1ClosedUnder_iff {g : GrammarE T N} {fs : N → Finset T × Bool}
    {K : Finset (LR1ItemE T N)} :
    lr1ClosedUnder g fs K ↔ genLR1 g fs K ⊆ K := by
  constructor
  · intro hC x hx
    rcases mem_genLR1.mp hx with ⟨it, hit, B, hnext, r, hr, la, hla, rfl⟩
    rcases mem_firstBetaA.mp hla with ⟨t', ht', rfl⟩ | ⟨hnul, rfl⟩
    · exact (hC it hit B hnext r hr).1 t' ht'
    · exact (hC it hit B hnext r hr).2 hnul
  · intro hG it hit B hnext r hr
    refine ⟨fun t' ht' => hG ?_, fun hnul => hG ?_⟩
    · exact mem_genLR1.mpr
        ⟨it, hit, B, hnext, r, hr, some t', mem_firstBetaA.mpr (Or.inl ⟨t', ht', rfl⟩), rfl⟩
    · exact mem_genLR1.mpr
        ⟨it, hit, B, hnext, r, hr, it.la, mem_firstBetaA.mpr (Or.inr ⟨hnul, rfl⟩), rfl⟩

/-- Membership in a fold of unions over a list. -/
theorem sub_foldr_union {α : Type} {l : List α} {B : α} (f : α → Finset T) (hB : B ∈ l) :
    f B ⊆ l.foldr (fun A acc => f A ∪ acc) ∅ := by
  induction l with
  | nil => exact absurd hB (List.not_mem_nil B)
  | cons A rest ih =>
    rcases List.mem_cons.mp hB with hBA | hBr
    · rw [hBA, List.foldr_cons]
      exact Finset.subset_union_left
    · exact (ih hBr).trans Finset.subset_union_right

/-- FIRST-set terminals of listed nonterminals land in `fsTerms`. -/
theorem fs_sub_fsTerms {g : GrammarE T N} {fs : N → Finset T × Bool} {B : N}
    (hB : B ∈ g.nts) : (fs B).1 ⊆ fsTerms g fs :=
  sub_foldr_union (fun A => (fs A).1) hB

/-- Body terminals of a listed rule land in `gBodyTerms`. -/
theorem bodyTerms_sub_gBodyTerms {g : GrammarE T N} {A : N} {r : Body T N}
    (hA : A ∈ g.nts) (hr : r ∈ g.rules A) : bodyTerms r ⊆ gBodyTerms g :=
  (sub_foldr_union bodyTerms hr).trans
    (sub_foldr_union (fun A => (g.rules A).foldr (fun r acc2 => bodyTerms r ∪ acc2) ∅) hA)

/-- Dropping a prefix only shrinks the body's terminal set. -/
theorem bodyTerms_drop_sub : ∀ (k : Nat) (r : Body T N),
    bodyTerms (r.drop k) ⊆ bodyTerms r := by
  intro k
  induction k with
  | zero => intro r; rw [List.drop_zero]
  | succ k ih =>
    intro r
    cases r with
    | nil => rw [List.drop_nil]
    | cons sy rest =>
      refine (ih rest).trans ?_
      cases sy with
      | t a => exact Finset.subset_insert _ _
      | nt B => exact subset_rfl

/-- Witness for C6: two one-state rules whose final states both appear in
the DFA state's NFA set; the selection picks rule 0's action 10. -/
theorem dfa_action_min_precedence_witness :
    ((1, 10, 0) : Nat × Nat × Nat) ∈
        (actionMappingOf subs6).filter (fun e => decide (e.1 ∈ ({1, 2} : Finset Nat))) ∧
    ((2, 20, 1) : Nat × Nat × Nat) ∈
        (actionMappingOf subs6).filter (fun e => decide (e.1 ∈ ({1, 2} : Finset Nat))) ∧
    (∃ e sub, subs6.get? e.2.2 = some sub ∧ e.2.1 = sub.act ∧
      dfaActionFor (actionMappingOf subs6) ({1, 2} : Finset Nat) = some sub.act ∧
      e ∈ (actionMappingOf subs6).filter (fun e => decide (e.1 ∈ ({1, 2} : Finset Nat))) ∧
      (∀ e' ∈ (actionMappingOf subs6).filter (fun e => decide (e.1 ∈ ({1, 2} : Finset Nat))),
        e.2.2 ≤ e'.2.2)) :=
  ⟨by decide, by decide,
    dfa_action_min_precedence subs6 {1, 2} (1, 10, 0) (2, 20, 1) (by decide) (by decide)
      (by decide)⟩

/-- `seqFirst` of a body with listed nonterminals draws its terminals from
the body itself and the FIRST sets of listed nonterminals. -/
theorem seqFirst_sub (g : GrammarE T N) (fs : N → Finset T × Bool) :
    ∀ β : Body T N, (∀ sy ∈ β, ntIn g sy) →
      (seqFirst fs β).1 ⊆ bodyTerms β ∪ fsTerms g fs := by
  intro β
  induction β with
  | nil =>
    intro _
    rw [seqFirst]
    exact Finset.empty_subset _
  | cons sy rest ih =>
    intro h
    cases sy with
    | t a =>
      rw [seqFirst]
      intro x hx
      rw [Finset.mem_singleton] at hx
      rw [hx]
      exact Finset.mem_union_left _ (Finset.mem_insert_self a _)
    | nt B =>
      have hB : B ∈ g.nts := h (.nt B) (List.mem_cons_self _ _)
      rw [seqFirst]
      cases hp : (fs B).2
      · simp only [hp, Bool.false_eq_true, if_false]
        exact (fs_sub_fsTerms hB).trans Finset.subset_union_right
      · simp only [hp, if_true]
        apply Finset.union_subset
        · exact (fs_sub_fsTerms hB).trans Finset.subset_union_right
        · refine (ih fun sy hsy => h sy (List.mem_cons_of_mem _ hsy)).trans ?_
          have : bodyTerms rest = bodyTerms (Sym.nt B :: rest) := rfl
          rw [← this]

/-- Unfolding membership in the closure's item universe. -/
theorem mem_lr1ItemUniverse {g : GrammarE T N} {fs : N → Finset T × Bool}
    {I : Finset (LR1ItemE T N)} {it : LR1ItemE T N} :
    it ∈ lr1ItemUniverse g fs I ↔
      it ∈ I ∨ ∃ B, B ∈ g.nts ∧ ∃ r, r ∈ g.rules B ∧
        ∃ la, la ∈ laUniverse g fs I ∧ it = ⟨B, r, 0, la⟩ := by
  rw [lr1ItemUniverse]
  rw [Finset.mem_union]
  apply or_congr Iff.rfl
  constructor
  · intro h
    rcases Finset.mem_biUnion.mp h with ⟨B, hB, h2⟩
    rcases Finset.mem_biUnion.mp h2 with ⟨r, hr, h3⟩
    rcases Finset.mem_image.mp h3 with ⟨la, hla, he⟩
    exact ⟨B, List.mem_toFinset.mp hB, r, List.mem_toFinset.mp hr, la, hla, he.symm⟩
  · rintro ⟨B, hB, r, hr, la, hla, rfl⟩
    exact Finset.mem_biUnion.mpr ⟨B, List.mem_toFinset.mpr hB,
      Finset.mem_biUnion.mpr ⟨r, List.mem_toFinset.mpr hr,
        Finset.mem_image.mpr ⟨la, hla, rfl⟩⟩⟩

/-- Every item of the universe has listed body nonterminals, body
terminals inside the lookahead terminal pool, and a lookahead in the
lookahead universe. -/
theorem lr1ItemUniverse_item_facts {g : GrammarE T N} {fs : N → Finset T × Bool}
    {I : Finset (LR1ItemE T N)} {it : LR1ItemE T N} (hwf : ClosWF g I)
    (hit : it ∈ lr1ItemUniverse g fs I) :
    (∀ sy ∈ it.rhs, ntIn g sy) ∧
    bodyTerms it.rhs ⊆
      (gBodyTerms g ∪ fsTerms g fs) ∪ I.biUnion (fun j => bodyTerms j.rhs) ∧
    it.la ∈ laUniverse g fs I := by
  rcases mem_lr1ItemUniverse.mp hit with hI | ⟨B, hB, r, hr, la, hla, rfl⟩
  · refine ⟨hwf.1 it hI, ?_, ?_⟩
    · exact (Finset.subset_biUnion_of_mem (fun j => bodyTerms j.rhs) hI).trans
        Finset.subset_union_right
    · exact Finset.mem_union_right _ (Finset.mem_image_of_mem _ hI)
  · exact ⟨hwf.2 B hB r hr,
      ((bodyTerms_sub_gBodyTerms hB hr).trans Finset.subset_union_left).trans
        Finset.subset_union_left,
      hla⟩

/-- One closure pass stays inside the universe. -/
theorem genLR1_sub_universe {g : GrammarE T N} {fs : N → Finset T × Bool}
    {I s : Finset (LR1ItemE T N)} (hwf : ClosWF g I)
    (hs : s ⊆ lr1ItemUniverse g fs I) :
    genLR1 g fs s ⊆ lr1ItemUniverse g fs I := by
  intro x hx
  rcases mem_genLR1.mp hx with ⟨it, hit, B, hnext, r, hr, la, hla, rfl⟩
  obtain ⟨hok, hterms, hla'⟩ := lr1ItemUniverse_item_facts hwf (hs hit)
  have hB : B ∈ g.nts := by
    have hmem : Sym.nt B ∈ it.rhs := List.get?_mem hnext
    exact hok _ hmem
  refine mem_lr1ItemUniverse.mpr (Or.inr ⟨B, hB, r, hr, la, ?_, rfl⟩)
  rcases mem_firstBetaA.mp hla with ⟨t', ht', rfl⟩ | ⟨_, rfl⟩
  · have hsy : ∀ sy ∈ it.rhs.drop (it.pos + 1), ntIn g sy :=
      fun sy hsy => hok sy (List.mem_of_mem_drop hsy)
    have ht2 := seqFirst_sub g fs _ hsy ht'
    have hTT : t' ∈ (gBodyTerms g ∪ fsTerms g fs) ∪ I.biUnion (fun j => bodyTerms j.rhs) := by
      rcases Finset.mem_union.mp ht2 with hbt | hfs
      · exact hterms (bodyTerms_drop_sub _ _ hbt)
      · exact Finset.mem_union_left _ (Finset.mem_union_right _ hfs)
    exact Finset.mem_union_left _
      (Finset.mem_insert_of_mem (Finset.mem_image_of_mem some hTT))
  · exact hla'

/-- The closure loop only grows its set. -/
theorem lr1ClosLoop_supset (g : GrammarE T N) (fs : N → Finset T × Bool) :
    ∀ (fuel : Nat) (s : Finset (LR1ItemE T N)), s ⊆ lr1ClosLoop g fs fuel s := by
  intro fuel
  induction fuel with
  | zero => intro s; rw [lr1ClosLoop]
  | succ fuel ih =>
    intro s
    rw [lr1ClosLoop]
    by_cases h : genLR1 g fs s ⊆ s
    · rw [if_pos h]
    · rw [if_neg h]
      exact Finset.subset_union_left.trans (ih _)

/-- The closure loop stays inside the universe. -/
theorem lr1ClosLoop_sub_universe {g : GrammarE T N} {fs : N → Finset T × Bool}
    {I : Finset (LR1ItemE T N)} (hwf : ClosWF g I) :
    ∀ (fuel : Nat) (s : Finset (LR1ItemE T N)),
      s ⊆ lr1ItemUniverse g fs I →
      lr1ClosLoop g fs fuel s ⊆ lr1ItemUniverse g fs I := by
  intro fuel
  induction fuel with
  | zero => intro s hs; rw [lr1ClosLoop]; exact hs
  | succ fuel ih =>
    intro s hs
    rw [lr1ClosLoop]
    by_cases h : genLR1 g fs s ⊆ s
    · rw [if_pos h]; exact hs
    · rw [if_neg h]
      exact ih _ (Finset.union_subset hs (genLR1_sub_universe hwf hs))

/-- `genLR1` is monotone. -/
theorem genLR1_mono {g : GrammarE T N} {fs : N → Finset T × Bool}
    {s s' : Finset (LR1ItemE T N)} (h : s ⊆ s') : genLR1 g fs s ⊆ genLR1 g fs s' :=
  Finset.biUnion_subset_biUnion_of_subset_left _ h

/-- The closure loop stays below every closed superset of its start. -/
theorem lr1ClosLoop_min {g : GrammarE T N} {fs : N → Finset T × Bool} :
    ∀ (fuel : Nat) (s K : Finset (LR1ItemE T N)),
      s ⊆ K → genLR1 g fs K ⊆ K → lr1ClosLoop g fs fuel s ⊆ K := by
  intro fuel
  induction fuel with
  | zero => intro s K hsK _; rw [lr1ClosLoop]; exact hsK
  | succ fuel ih =>
    intro s K hsK hK
    rw [lr1ClosLoop]
    by_cases h : genLR1 g fs s ⊆ s
    · rw [if_pos h]; exact hsK
    · rw [if_neg h]
      exact ih _ K (Finset.union_subset hsK ((genLR1_mono hsK).trans hK)) hK

/-- With fuel exceeding the remaining slack in the universe, the loop
reaches a `genLR1`-fixed point. -/
theorem lr1ClosLoop_fix {g : GrammarE T N} {fs : N → Finset T × Bool}
    {I : Finset (LR1ItemE T N)} (hwf : ClosWF g I) :
    ∀ (fuel : Nat) (s : Finset (LR1ItemE T N)),
      s ⊆ lr1ItemUniverse g fs I →
      (lr1ItemUniverse g fs I).card - s.card < fuel →
      genLR1 g fs (lr1ClosLoop g fs fuel s) ⊆ lr1ClosLoop g fs fuel s := by
  intro fuel
  induction fuel with
  | zero => intro s _ hcard; omega
  | succ fuel ih =>
    intro s hs hcard
    rw [lr1ClosLoop]
    by_cases h : genLR1 g fs s ⊆ s
    · rw [if_pos h]; exact h
    · rw [if_neg h]
      have hsub : s ∪ genLR1 g fs s ⊆ lr1ItemUniverse g fs I :=
        Finset.union_subset hs (genLR1_sub_universe hwf hs)
      have hlt : s.card < (s ∪ genLR1 g fs s).card := by
        apply Finset.card_lt_card
        constructor
        · exact Finset.subset_union_left
        · intro hback
          exact h (Finset.subset_union_right.trans hback)
      have hle := Finset.card_le_card hsub
      exact ih _ hsub (by omega)

/-- C3: for every grammar whose referenced nonterminals all have rule
entries (in the form `ClosWF`, which also lists the nonterminals of the
initial items), `lr1_closure` extends `I` to the least set closed under
the spec's rule: for `[A → α·Bβ, a]` in the set and every production
`B → γ`, it contains `[B → ·γ, b]` for every terminal `b` of the
compositional `FIRST(β)` and contains `[B → ·γ, a]` exactly when all of
`β` is nullable (or `β` is empty) — `lr1ClosedUnder` states the rule,
minimality makes the "exactly" precise
(src/lalr/src/lr1.rs:267-357). -/
theorem lr1_closure_least (g : GrammarE T N) (fs : N → Finset T × Bool)
    (I : Finset (LR1ItemE T N)) (hwf : ClosWF g I) :
    I ⊆ lr1_closureE g fs I ∧
    lr1ClosedUnder g fs (lr1_closureE g fs I) ∧
    ∀ K, I ⊆ K → lr1ClosedUnder g fs K → lr1_closureE g fs I ⊆ K := by
  refine ⟨lr1ClosLoop_supset g fs _ I, ?_, ?_⟩
  · apply lr1ClosedUnder_iff.mpr
    apply lr1ClosLoop_fix hwf
    · exact Finset.subset_union_left
    · have := Finset.card_le_card
        (Finset.subset_union_left : I ⊆ lr1ItemUniverse g fs I)
      omega
  · intro K hIK hK
    exact lr1ClosLoop_min _ I K hIK (lr1ClosedUnder_iff.mp hK)

/-- Witness for C3 on the grammar `0 → 1`, `1 → t5` with
`FIRST(1) = {5}` and `I = {[0 → ·1, $]}`. -/
theorem lr1_closure_least_witness :
    ClosWF g3w I3w ∧
    (I3w ⊆ lr1_closureE g3w fs3w I3w ∧
     lr1ClosedUnder g3w fs3w (lr1_closureE g3w fs3w I3w) ∧
     ∀ K, I3w ⊆ K → lr1ClosedUnder g3w fs3w K → lr1_closureE g3w fs3w I3w ⊆ K) :=
  ⟨by decide, lr1_closure_least g3w fs3w I3w (by decide)⟩

/-- Sorted iteration hits exactly the set's elements. -/
theorem mem_sortedList {α : Type} [LinearOrder α] {s : Finset α} {a : α} :
    a ∈ sortedList s ↔ a ∈ s := by
  rcases s with ⟨val, nd⟩
  induction val using Quotient.inductionOn with
  | h l =>
    show a ∈ List.insertionSort (· ≤ ·) l ↔ _
    rw [List.Perm.mem_iff (List.perm_insertionSort _ _)]
    exact Iff.rfl

/-- `set_action` on a terminal succeeds exactly by writing an empty cell. -/
theorem set_action_ok_some {ls ls' : LR1StateE T N} {s : T} {a : ActionE T N}
    (h : set_action ls (some s) a = .ok ls') :
    ls.actions s = none ∧
    ls' = { ls with actions := fun x => if x = s then some a else ls.actions x } := by
  cases hs : ls.actions s with
  | some existing =>
    cases hdc : determine_conflict existing a (some s) <;>
      simp [set_action, hs, hdc] at h
  | none =>
    simp only [set_action, hs] at h
    injection h with h'
    exact ⟨rfl, h'.symm⟩

/-- `set_action` on the endmarker succeeds exactly by writing it empty. -/
theorem set_action_ok_none {ls ls' : LR1StateE T N} {a : ActionE T N}
    (h : set_action ls none a = .ok ls') :
    ls.endmarker = none ∧ ls' = { ls with endmarker := some a } := by
  cases hs : ls.endmarker with
  | some existing =>
    cases hdc : determine_conflict existing a none <;>
      simp [set_action, hs, hdc] at h
  | none =>
    simp only [set_action, hs] at h
    injection h with h'
    exact ⟨rfl, h'.symm⟩

/-- A successful `set_action` only grows the cells and never touches the
GOTO map. -/
theorem set_action_stMono {ls ls' : LR1StateE T N} {sy : Option T} {a : ActionE T N}
    (h : set_action ls sy a = .ok ls') : StMono ls ls' := by
  cases sy with
  | some s =>
    obtain ⟨hn, rfl⟩ := set_action_ok_some h
    refine ⟨⟨?_, fun v hv => hv⟩, rfl⟩
    intro x v hv
    show (if x = s then some a else ls.actions x) = some v
    by_cases hx : x = s
    · rw [hx] at hv; rw [hn] at hv; exact Option.noConfusion hv
    · rw [if_neg hx]; exact hv
  | none =>
    obtain ⟨hn, rfl⟩ := set_action_ok_none h
    refine ⟨⟨fun x v hv => hv, ?_⟩, rfl⟩
    intro v hv
    rw [hn] at hv
    exact Option.noConfusion hv

/-- The cell written by a successful terminal `set_action`. -/
theorem set_action_sets_some {ls ls' : LR1StateE T N} {s : T} {a : ActionE T N}
    (h : set_action ls (some s) a = .ok ls') : ls'.actions s = some a := by
  obtain ⟨_, rfl⟩ := set_action_ok_some h
  show (if s = s then some a else ls.actions s) = some a
  rw [if_pos rfl]

/-- The endmarker cell written by a successful `set_action`. -/
theorem set_action_sets_none {ls ls' : LR1StateE T N} {a : ActionE T N}
    (h : set_action ls none a = .ok ls') : ls'.endmarker = some a := by
  obtain ⟨_, rfl⟩ := set_action_ok_none h
  rfl

/-- Transitivity of cell growth. -/
theorem actsMono_trans {a b c : LR1StateE T N} (h1 : ActsMono a b) (h2 : ActsMono b c) :
    ActsMono a c :=
  ⟨fun x v hv => h2.1 x v (h1.1 x v hv), fun v hv => h2.2 v (h1.2 v hv)⟩

/-- Reflexivity of cell growth. -/
theorem actsMono_refl (a : LR1StateE T N) : ActsMono a a :=
  ⟨fun _ _ hv => hv, fun _ hv => hv⟩

/-- Transitivity of the item-phase growth. -/
theorem stMono_trans {a b c : LR1StateE T N} (h1 : StMono a b) (h2 : StMono b c) :
    StMono a c :=
  ⟨actsMono_trans h1.1 h2.1, h2.2.trans h1.2⟩

/-- Reflexivity of the item-phase growth. -/
theorem stMono_refl (a : LR1StateE T N) : StMono a a := ⟨actsMono_refl a, rfl⟩

/-- A transition step only grows the action cells. -/
theorem transStep_ok_actsMono {ls ls' : LR1StateE T N} {e : Sym T N × Nat}
    (h : transStep ls e = .ok ls') : ActsMono ls ls' := by
  obtain ⟨sy, j⟩ := e
  cases sy with
  | t a =>
    exact (set_action_stMono
      (show set_action ls (some a) (ActionE.shift j) = Except.ok ls' from h)).1
  | nt A =>
    injection h with h'
    subst h'
    exact actsMono_refl _

/-- The GOTO map after a transition step. -/
theorem transStep_ok_goto {ls ls' : LR1StateE T N} {sy : Sym T N} {j : Nat}
    (h : transStep ls (sy, j) = .ok ls') (A : N) :
    ls'.goto A = if sy = Sym.nt A then some j else ls.goto A := by
  cases sy with
  | t a =>
    obtain ⟨_, rfl⟩ := set_action_ok_some
      (show set_action ls (some a) (ActionE.shift j) = Except.ok ls' from h)
    rw [if_neg (by simp)]
  | nt B =>
    injection h with h'
    subst h'
    show (if A = B then some j else ls.goto A) = _
    by_cases hab : A = B
    · rw [if_pos hab, if_pos (by rw [hab])]
    · rw [if_neg hab, if_neg (by simp [eq_comm, hab])]

/-- The transition fold only grows the action cells. -/
theorem foldE_transStep_actsMono :
    ∀ (ts : List (Sym T N × Nat)) (ls ls' : LR1StateE T N),
      foldE transStep ls ts = .ok ls' → ActsMono ls ls' := by
  intro ts
  induction ts with
  | nil =>
    intro ls ls' h
    injection h with h'
    subst h'
    exact actsMono_refl _
  | cons e t ih =>
    intro ls ls' h
    rw [foldE] at h
    cases hstep : transStep ls e with
    | error er => rw [hstep] at h; exact Except.noConfusion h
    | ok ls1 => rw [hstep] at h; exact actsMono_trans (transStep_ok_actsMono hstep) (ih ls1 ls' h)

/-- After a successful transition fold, every terminal transition has its
Shift action in place. -/
theorem foldE_transStep_shift :
    ∀ (ts : List (Sym T N × Nat)) (ls ls' : LR1StateE T N),
      foldE transStep ls ts = .ok ls' →
      ∀ a j, (Sym.t a, j) ∈ ts → ls'.actions a = some (.shift j) := by
  intro ts
  induction ts with
  | nil => intro ls ls' _ a j hmem; exact absurd hmem (List.not_mem_nil _)
  | cons e t ih =>
    intro ls ls' h a j hmem
    rw [foldE] at h
    cases hstep : transStep ls e with
    | error er => rw [hstep] at h; exact Except.noConfusion h
    | ok ls1 =>
      rw [hstep] at h
      rcases List.mem_cons.mp hmem with he | hmem'
      · rw [← he] at hstep
        exact (foldE_transStep_actsMono t ls1 ls' h).1 a _ (set_action_sets_some
          (show set_action ls (some a) (ActionE.shift j) = Except.ok ls1 from hstep))
      · exact ih ls1 ls' h a j hmem'

/-- The transition fold leaves GOTO entries of absent keys unchanged. -/
theorem foldE_transStep_goto_preserve :
    ∀ (ts : List (Sym T N × Nat)) (ls ls' : LR1StateE T N),
      foldE transStep ls ts = .ok ls' →
      ∀ A, (∀ j, (Sym.nt A, j) ∉ ts) → ls'.goto A = ls.goto A := by
  intro ts
  induction ts with
  | nil =>
    intro ls ls' h A _
    injection h with h'
    subst h'
    rfl
  | cons e t ih =>
    intro ls ls' h A hA
    rw [foldE] at h
    cases hstep : transStep ls e with
    | error er => rw [hstep] at h; exact Except.noConfusion h
    | ok ls1 =>
      rw [hstep] at h
      obtain ⟨sy, j0⟩ := e
      have h1 : ls1.goto A = ls.goto A := by
        rw [transStep_ok_goto hstep A]
        rw [if_neg ?_]
        intro hsy
        exact hA j0 (by rw [hsy]; exact List.mem_cons_self _ _)
      rw [ih ls1 ls' h A (fun j hj => hA j (List.mem_cons_of_mem _ hj)), h1]

/-- After a successful transition fold with distinct keys, every
nonterminal transition has its GOTO entry in place. -/
theorem foldE_transStep_goto :
    ∀ (ts : List (Sym T N × Nat)) (ls ls' : LR1StateE T N),
      foldE transStep ls ts = .ok ls' →
      (ts.map Prod.fst).Nodup →
      ∀ A j, (Sym.nt A, j) ∈ ts → ls'.goto A = some j := by
  intro ts
  induction ts with
  | nil => intro ls ls' _ _ A j hmem; exact absurd hmem (List.not_mem_nil _)
  | cons e t ih =>
    intro ls ls' h hnd A j hmem
    rw [foldE] at h
    cases hstep : transStep ls e with
    | error er => rw [hstep] at h; exact Except.noConfusion h
    | ok ls1 =>
      rw [hstep] at h
      rw [List.map_cons, List.nodup_cons] at hnd
      rcases List.mem_cons.mp hmem with he | hmem'
      · rw [← he] at hstep hnd
        have h1 : ls1.goto A = some j := by
          rw [transStep_ok_goto hstep A, if_pos rfl]
        rw [foldE_transStep_goto_preserve t ls1 ls' h A ?_, h1]
        intro j' hj'
        exact hnd.1 (List.mem_map.mpr ⟨(Sym.nt A, j'), hj', rfl⟩)
      · exact ih ls1 ls' h hnd.2 A j hmem'

/-- The reduce fold over a FOLLOW set: cells grow, and each listed
terminal ends with the Reduce action. -/
theorem foldE_setRed (act : ActionE T N) :
    ∀ (l : List T) (ls ls' : LR1StateE T N),
      foldE (fun ls2 a => set_action ls2 (some a) act) ls l = .ok ls' →
      StMono ls ls' ∧ ∀ a ∈ l, ls'.actions a = some act := by
  intro l
  induction l with
  | nil =>
    intro ls ls' h
    injection h with h'
    subst h'
    exact ⟨stMono_refl _, fun a ha => absurd ha (List.not_mem_nil _)⟩
  | cons a t ih =>
    intro ls ls' h
    rw [foldE] at h
    cases hstep : set_action ls (some a) act with
    | error er => rw [hstep] at h; exact Except.noConfusion h
    | ok ls1 =>
      rw [hstep] at h
      obtain ⟨m2, hall⟩ := ih ls1 ls' h
      refine ⟨stMono_trans (set_action_stMono hstep) m2, ?_⟩
      intro a' ha'
      rcases List.mem_cons.mp ha' with he | hmem
      · rw [he]
        exact m2.1.1 a _ (set_action_sets_some hstep)
      · exact hall a' hmem

/-- An item step only grows the cells and never touches the GOTO map. -/
theorem itemStep_ok_stMono {g : GrammarE T N} {follow : N → Finset T × Bool}
    {ls ls' : LR1StateE T N} {it : Item0 T N}
    (h : itemStep g follow ls it = .ok ls') : StMono ls ls' := by
  rw [itemStep] at h
  by_cases hc : it.pos = it.rhs.length
  · rw [if_pos hc] at h
    by_cases hl : it.lhs ≠ g.start
    · rw [if_pos hl] at h
      cases hfold : foldE (fun ls2 a => set_action ls2 (some a) (.reduce it.lhs it.rhs)) ls
          (sortedList ((follow it.lhs).1)) with
      | error er => rw [hfold] at h; exact Except.noConfusion h
      | ok ls3 =>
        rw [hfold] at h
        have h2 : (if (follow it.lhs).2 = true then
            set_action ls3 none (ActionE.reduce it.lhs it.rhs)
          else Except.ok ls3) = Except.ok ls' := h
        have m1 := (foldE_setRed _ _ ls ls3 hfold).1
        by_cases hfl : (follow it.lhs).2 = true
        · rw [if_pos hfl] at h2
          exact stMono_trans m1 (set_action_stMono h2)
        · rw [if_neg hfl] at h2
          injection h2 with h'
          subst h'
          exact m1
    · rw [if_neg hl] at h
      exact set_action_stMono h
  · rw [if_neg hc] at h
    injection h with h'
    subst h'
    exact stMono_refl _

/-- A successful item step establishes the claim's Reduce/Accept cells for
its item. -/
theorem itemStep_ok_props {g : GrammarE T N} {follow : N → Finset T × Bool}
    {ls ls' : LR1StateE T N} {it : Item0 T N}
    (h : itemStep g follow ls it = .ok ls') :
    (it.pos = it.rhs.length → it.lhs ≠ g.start →
      (∀ a ∈ (follow it.lhs).1, ls'.actions a = some (.reduce it.lhs it.rhs)) ∧
      ((follow it.lhs).2 = true → ls'.endmarker = some (.reduce it.lhs it.rhs))) ∧
    (it.pos = it.rhs.length → it.lhs = g.start → ls'.endmarker = some .accept) := by
  constructor
  · intro hc hl
    rw [itemStep, if_pos hc, if_pos hl] at h
    cases hfold : foldE (fun ls2 a => set_action ls2 (some a) (.reduce it.lhs it.rhs)) ls
        (sortedList ((follow it.lhs).1)) with
    | error er => rw [hfold] at h; exact Except.noConfusion h
    | ok ls3 =>
      rw [hfold] at h
      have h2 : (if (follow it.lhs).2 = true then
          set_action ls3 none (ActionE.reduce it.lhs it.rhs)
        else Except.ok ls3) = Except.ok ls' := h
      obtain ⟨_, hall⟩ := foldE_setRed _ _ ls ls3 hfold
      by_cases hfl : (follow it.lhs).2 = true
      · rw [if_pos hfl] at h2
        have m2 := set_action_stMono h2
        refine ⟨?_, fun _ => set_action_sets_none h2⟩
        intro a ha
        exact m2.1.1 a _ (hall a (mem_sortedList.mpr ha))
      · rw [if_neg hfl] at h2
        injection h2 with h'
        subst h'
        exact ⟨fun a ha => hall a (mem_sortedList.mpr ha), fun hfl2 => absurd hfl2 hfl⟩
  · intro hc hl
    rw [itemStep, if_pos hc, if_neg (fun hn => hn hl)] at h
    exact set_action_sets_none h

/-- The item fold only grows the cells and never touches the GOTO map. -/
theorem foldE_itemStep_stMono {g : GrammarE T N} {follow : N → Finset T × Bool} :
    ∀ (items : List (Item0 T N)) (ls ls' : LR1StateE T N),
      foldE (itemStep g follow) ls items = .ok ls' → StMono ls ls' := by
  intro items
  induction items with
  | nil =>
    intro ls ls' h
    injection h with h'
    subst h'
    exact stMono_refl _
  | cons it t ih =>
    intro ls ls' h
    rw [foldE] at h
    cases hstep : itemStep g follow ls it with
    | error er => rw [hstep] at h; exact Except.noConfusion h
    | ok ls1 => rw [hstep] at h; exact stMono_trans (itemStep_ok_stMono hstep) (ih ls1 ls' h)

/-- After a successful item fold, every complete item of the list has its
Reduce (respectively Accept) cells in place. -/
theorem foldE_itemStep_props {g : GrammarE T N} {follow : N → Finset T × Bool} :
    ∀ (items : List (Item0 T N)) (ls ls' : LR1StateE T N),
      foldE (itemStep g follow) ls items = .ok ls' →
      ∀ it ∈ items,
        (it.pos = it.rhs.length → it.lhs ≠ g.start →
          (∀ a ∈ (follow it.lhs).1, ls'.actions a = some (.reduce it.lhs it.rhs)) ∧
          ((follow it.lhs).2 = true → ls'.endmarker = some (.reduce it.lhs it.rhs))) ∧
        (it.pos = it.rhs.length → it.lhs = g.start → ls'.endmarker = some .accept) := by
  intro items
  induction items with
  | nil => intro ls ls' _ it hmem; exact absurd hmem (List.not_mem_nil _)
  | cons it0 t ih =>
    intro ls ls' h it hmem
    rw [foldE] at h
    cases hstep : itemStep g follow ls it0 with
    | error er => rw [hstep] at h; exact Except.noConfusion h
    | ok ls1 =>
      rw [hstep] at h
      rcases List.mem_cons.mp hmem with he | hmem'
      · subst he
        obtain ⟨p1, p2⟩ := itemStep_ok_props hstep
        have m2 := foldE_itemStep_stMono t ls1 ls' h
        constructor
        · intro hc hl
          obtain ⟨q1, q2⟩ := p1 hc hl
          exact ⟨fun a ha => m2.1.1 a _ (q1 a ha), fun hfl => m2.1.2 _ (q2 hfl)⟩
        · intro hc hl
          exact m2.1.2 _ (p2 hc hl)
      · exact ih ls1 ls' h it hmem'

/-- `mapE` sends the `i`-th input to the `i`-th output through `f`. -/
theorem mapE_ok_get {α β ε : Type} {f : α → Except ε β} :
    ∀ (l : List α) (l' : List β), mapE f l = .ok l' →
      ∀ i x, l.get? i = some x → ∃ y, l'.get? i = some y ∧ f x = .ok y := by
  intro l
  induction l with
  | nil =>
    intro l' _ i x hx
    rw [List.get?_eq_none.mpr (by simp)] at hx
    exact Option.noConfusion hx
  | cons a t ih =>
    intro l' h i x hx
    rw [mapE] at h
    cases hfa : f a with
    | error er => rw [hfa] at h; exact Except.noConfusion h
    | ok b =>
      rw [hfa] at h
      cases hmt : mapE f t with
      | error er => rw [hmt] at h; exact Except.noConfusion h
      | ok bs =>
        rw [hmt] at h
        injection h with h'
        subst h'
        cases i with
        | zero =>
          injection hx with hx'
          subst hx'
          exact ⟨b, rfl, hfa⟩
        | succ i => exact ih bs hmt i x hx

/-- Keys of a key-preserving `filterMap` over a duplicate-free list are
duplicate-free. -/
theorem nodup_keys_filterMap {α β : Type} {l : List α} {f : α → Option (α × β)}
    (hf : ∀ a p, f a = some p → p.1 = a) (h : l.Nodup) :
    ((l.filterMap f).map Prod.fst).Nodup := by
  have hmem : ∀ (t : List α) (p : α × β), p ∈ t.filterMap f → p.1 ∈ t := by
    intro t p hp
    rcases List.mem_filterMap.mp hp with ⟨a, ha, hfa⟩
    rw [hf a p hfa]
    exact ha
  induction l with
  | nil => simp
  | cons a t ih =>
    rw [List.filterMap_cons]
    rw [List.nodup_cons] at h
    cases hfa : f a with
    | none => exact ih h.2
    | some p =>
      rw [List.map_cons, List.nodup_cons]
      refine ⟨?_, ih h.2⟩
      intro hmem2
      rcases List.mem_map.mp hmem2 with ⟨q, hq, hq1⟩
      have hq2 : q.1 ∈ t := hmem t q hq
      rw [hq1, hf a p hfa] at hq2
      exact h.1 hq2

/-- The transition lists built by the modelled LR(0) automaton have
duplicate-free keys. -/
theorem transAt_keys_nodup (g : GrammarE T N) (sts : List (Finset (Item0 T N)))
    (I : Finset (Item0 T N)) : ((transAt g sts I).map Prod.fst).Nodup := by
  apply nodup_keys_filterMap
  · intro X p hp
    by_cases hJ : goto0 g I X = ∅
    · simp only [hJ, if_pos rfl] at hp
      exact Option.noConfusion hp
    · simp only [if_neg hJ] at hp
      rcases Option.map_eq_some'.mp hp with ⟨j, _, hpe⟩
      rw [← hpe]
  · exact List.nodup_dedup _

/-- Every state of the modelled LR(0) automaton has duplicate-free
transition keys. -/
theorem lr0_automatonE_trans_nodup (g : GrammarE T N) :
    ∀ (i : Nat) (st : LR0StateE T N),
      (lr0_automatonE g).states.get? i = some st →
      (st.transitions.map Prod.fst).Nodup := by
  intro i st hst
  simp only [lr0_automatonE] at hst
  rw [List.get?_map] at hst
  cases hI : (lr0Explore g (2 ^ (fullItemUniverse g).card + 1)
      [closure0 g ({startItem g} : Finset (Item0 T N))]
      [closure0 g ({startItem g} : Finset (Item0 T N))]).get? i with
  | none => rw [hI] at hst; exact Option.noConfusion hst
  | some I =>
    rw [hI] at hst
    injection hst with hst'
    rw [← hst']
    exact transAt_keys_nodup g _ I

/-- C1: whenever `slr1_table` returns `Ok`, the table satisfies — for the
LR(0) automaton and FOLLOW sets it was built from — exactly the claim's
properties: terminal transitions give Shift actions, nonterminal
transitions give GOTO entries, complete items of non-start nonterminals
give Reduce actions on their FOLLOW set (endmarker included via the
flag), and complete items of the start symbol (in particular `[S' → S·]`)
give the Accept endmarker action (src/lalr/src/lr1.rs:360-418). -/
theorem slr1_table_ok_entries (g : GrammarE T N) (tbl : LR1TableE T N)
    (hOk : slr1_tableE g = .ok tbl) (i : Nat) (st : LR0StateE T N)
    (ls : LR1StateE T N)
    (hst : (lr0_automatonE g).states.get? i = some st)
    (hls : tbl.states.get? i = some ls) :
    (∀ a j, (Sym.t a, j) ∈ st.transitions → ls.actions a = some (.shift j)) ∧
    (∀ A j, (Sym.nt A, j) ∈ st.transitions → ls.goto A = some j) ∧
    (∀ it ∈ st.items, it.pos = it.rhs.length → it.lhs ≠ g.start →
      (∀ a ∈ (follow_setsE g none it.lhs).1,
        ls.actions a = some (.reduce it.lhs it.rhs)) ∧
      ((follow_setsE g none it.lhs).2 = true →
        ls.endmarker = some (.reduce it.lhs it.rhs))) ∧
    (∀ it ∈ st.items, it.pos = it.rhs.length → it.lhs = g.start →
      ls.endmarker = some (ActionE.accept)) := by
  simp only [slr1_tableE] at hOk
  cases hm : mapE (buildState g (follow_setsE g none)) (lr0_automatonE g).states with
  | error e => rw [hm] at hOk; exact Except.noConfusion hOk
  | ok sts2 =>
    rw [hm] at hOk
    injection hOk with h'
    subst h'
    obtain ⟨y, hy, hbs⟩ := mapE_ok_get _ _ hm i st hst
    have hys : y = ls := by
      have h2 : sts2.get? i = some ls := hls
      rw [hy] at h2
      injection h2
    subst hys
    rw [buildState] at hbs
    cases hf1 : foldE transStep emptyLR1State st.transitions with
    | error er => rw [hf1] at hbs; exact Except.noConfusion hbs
    | ok ls1 =>
      rw [hf1] at hbs
      have hnd := lr0_automatonE_trans_nodup g i st hst
      have m2 := foldE_itemStep_stMono st.items ls1 y hbs
      refine ⟨?_, ?_, ?_, ?_⟩
      · intro a j hmem
        exact m2.1.1 a _ (foldE_transStep_shift st.transitions _ _ hf1 a j hmem)
      · intro A j hmem
        rw [m2.2]
        exact foldE_transStep_goto st.transitions _ _ hf1 hnd A j hmem
      · intro it hit hc hl
        exact (foldE_itemStep_props st.items _ _ hbs it hit).1 hc hl
      · intro it hit hc hl
        exact (foldE_itemStep_props st.items _ _ hbs it hit).2 hc hl

/-- Witness for C1: `slr1_table` succeeds on the grammar `S' → S`,
`S → a`, and state 0 of its table satisfies the claim's properties. -/
theorem slr1_table_ok_entries_witness :
    slr1_tableE gLin = .ok wTbl ∧
    (lr0_automatonE gLin).states.get? 0 = some wSt ∧
    wTbl.states.get? 0 = some wLs ∧
    ((∀ a j, (Sym.t a, j) ∈ wSt.transitions → wLs.actions a = some (.shift j)) ∧
     (∀ A j, (Sym.nt A, j) ∈ wSt.transitions → wLs.goto A = some j) ∧
     (∀ it ∈ wSt.items, it.pos = it.rhs.length → it.lhs ≠ gLin.start →
       (∀ a ∈ (follow_setsE gLin none it.lhs).1,
         wLs.actions a = some (.reduce it.lhs it.rhs)) ∧
       ((follow_setsE gLin none it.lhs).2 = true →
         wLs.endmarker = some (.reduce it.lhs it.rhs))) ∧
     (∀ it ∈ wSt.items, it.pos = it.rhs.length → it.lhs = gLin.start →
       wLs.endmarker = some (ActionE.accept))) :=
  ⟨by rfl, by rfl, by rfl,
    slr1_table_ok_entries gLin wTbl (by rfl) 0 wSt wLs (by rfl) (by rfl)⟩

end ISC
